import Mathlib

/-!
# Verification of the certaudio episode-generation pipeline

Shallow embedding of the core of `src/pipeline/tools/generate_episodes.py` and
`src/pipeline/tools/synthesize_audio.py` (repository matthansen0/certaudio),
with theorems settling the frozen claims about it.

Modelling conventions:
* Python strings are Lean `String`s; character-level scanning functions work on
  `String.data : List Char`.
* Python exceptions are modelled with `Except String`: a `raise` is
  `Except.error`, a normal return is `Except.ok`.
* External collaborators (Azure OpenAI, Speech, Cosmos, Blob) are parameters of
  the functions that call them, as total functions or `Except`-valued stubs.
* Machine integers are `Nat`; episode numbering never overflows in the claims
  considered.
-/

namespace CertAudio

/-! ## Skills outline flattening and batch numbering (`main`)

Mirrors `generate_episodes.main`, lines 1006-1032: filter skills that have a
non-empty topic list, split each skill's topics into chunks of
`topics_per_episode`, flatten in order, then slice
`[batch_index*batch_size, batch_index*batch_size + batch_size)` and number
episodes from `start_idx + 1`. -/

/-- A skill domain from the skills outline JSON: `{name, topics, sourceUrls}`. -/
structure Skill where
  name : String
  topics : List String
  sourceUrls : List String
deriving Repr, DecidableEq

/-- An episode unit produced by flattening the outline
(`generate_episodes.py` lines 1019-1025). -/
structure EpisodeUnit where
  domain : String
  topics : List String
  sourceUrls : List String
  part : Nat
  total_parts : Nat
deriving Repr, DecidableEq

/-- `topics[chunk_idx:chunk_idx+k]` for `chunk_idx in range(0, len(topics), k)`:
successive chunks of size `k` (last one may be shorter).  Fuel recursion; with
`fuel ≥ l.length` and `0 < k` it peels exactly the Python chunks. -/
def chunksOfAux (k : Nat) : Nat → List α → List (List α)
  | _, [] => []
  | 0, _ => []
  | fuel + 1, l => l.take k :: chunksOfAux k fuel (l.drop k)

/-- The chunk list `[topics[i:i+k] for i in range(0, len(topics), k)]`. -/
def chunksOf (k : Nat) (l : List α) : List (List α) :=
  chunksOfAux k l.length l

/-- `(len(topics) + k - 1) // k`, the `total_parts` field of a unit. -/
def totalPartsOf (nTopics k : Nat) : Nat := (nTopics + k - 1) / k

/-- Flattening of `main`, lines 1006-1025: keep skills with topics, expand each
into episode units in order.  Pure function of the outline and
`topics_per_episode`, hence deterministic across invocations. -/
def flattenUnits (skills : List Skill) (topicsPerEpisode : Nat) : List EpisodeUnit :=
  (skills.filter (fun s => !s.topics.isEmpty)).flatMap (fun s =>
    ((chunksOf topicsPerEpisode s.topics).enum).map (fun p =>
      { domain := s.name
        topics := p.2
        sourceUrls := s.sourceUrls
        part := p.1 + 1
        total_parts := totalPartsOf s.topics.length topicsPerEpisode }))

/-- `start_idx = batch_index * batch_size` (line 1030). -/
def batchStartIdx (batchIndex batchSize : Nat) : Nat := batchIndex * batchSize

/-- `batch_units = episode_units[start_idx:end_idx]` (lines 1030-1032). -/
def batchUnits (skills : List Skill) (topicsPerEpisode batchIndex batchSize : Nat) :
    List EpisodeUnit :=
  ((flattenUnits skills topicsPerEpisode).drop (batchStartIdx batchIndex batchSize)).take
    batchSize

/-- `base_episode_number = start_idx + 1` (line 1098). -/
def baseEpisodeNumber (batchIndex batchSize : Nat) : Nat :=
  batchStartIdx batchIndex batchSize + 1

/-- `episode_number = base_episode_number + i` for the unit at position `i`
within the batch (line 1115). -/
def assignedEpisodeNumber (batchIndex batchSize posInBatch : Nat) : Nat :=
  baseEpisodeNumber batchIndex batchSize + posInBatch

/-! ## Segmenter (`split_narration_for_tts`, lines 762-781)

The narration string is represented by its list of blank-line-separated raw
blocks, i.e. the result of `re.split(r"\n\s*\n", narration)`; the stripping
and blank-dropping comprehension of line 764 and the accumulation loop of
lines 765-781 are embedded directly. -/

/-- Whitespace as recognised by Python's `str.split()` / `str.strip()`
(ASCII whitespace; the rare extra Unicode whitespace characters Python also
treats as blank play no role in any claim). -/
def pyWS (c : Char) : Bool :=
  (c == ' ') || (c == '\t') || (c == '\n') || (c == '\r') || (c == '\x0b') ||
    (c == '\x0c')

/-- `str.split()` — split on whitespace runs, dropping empty pieces — on a
character list; `buf` is the in-progress word, reversed. -/
def pySplitAux : List Char → List Char → List (List Char)
  | [], buf => if buf.isEmpty then [] else [buf.reverse]
  | c :: cs, buf =>
    if pyWS c then
      if buf.isEmpty then pySplitAux cs []
      else buf.reverse :: pySplitAux cs []
    else pySplitAux cs (c :: buf)

/-- The words of a string, `s.split()`. -/
def pyWords (s : String) : List (List Char) := pySplitAux s.data []

/-- `len(s.split())`, the word count used throughout the pipeline. -/
def wordCount (s : String) : Nat := (pyWords s).length

/-- `str.strip()` on a character list. -/
def pyStripCh (cs : List Char) : List Char :=
  (cs.dropWhile pyWS).rdropWhile pyWS

/-- `str.strip()`. -/
def pyStrip (s : String) : String := ⟨pyStripCh s.data⟩

/-- `"\n\n".join` at the character level. -/
def joinParasCh : List (List Char) → List Char
  | [] => []
  | [p] => p
  | p :: q :: ps => p ++ '\n' :: '\n' :: joinParasCh (q :: ps)

/-- `"\n\n".join(paragraphs)`. -/
def joinParas (g : List String) : String := ⟨joinParasCh (g.map String.data)⟩

/-- `[p.strip() for p in re.split(r"\n\s*\n", narration) if p.strip()]`
(line 764). -/
def cleanParagraphs (rawParas : List String) : List String :=
  (rawParas.map pyStrip).filter (fun p => p != "")

/-- The accumulation loop of `split_narration_for_tts` (lines 765-777),
returning the groups of paragraphs that make up each segment; `current` is
held in reverse. -/
def chunkParasAux (bound : Nat) : List String → List String → Nat → List (List String)
  | [], current, _ => if current.isEmpty then [] else [current.reverse]
  | p :: ps, current, currentWords =>
    if current ≠ [] ∧ bound < currentWords + wordCount p then
      current.reverse :: chunkParasAux bound ps [p] (wordCount p)
    else
      chunkParasAux bound ps (p :: current) (currentWords + wordCount p)

/-- The paragraph groups of the segmentation. -/
def chunkParas (rawParas : List String) (bound : Nat) : List (List String) :=
  chunkParasAux bound (cleanParagraphs rawParas) [] 0

/-- `split_narration_for_tts(narration, max_words_per_segment)`: each group is
emitted as `"\n\n".join(current).strip()` (lines 772, 779). -/
def split_narration_for_tts (rawParas : List String) (bound : Nat) : List String :=
  (chunkParas rawParas bound).map (fun g => pyStrip (joinParas g))

/-! ## Executable model of `xml.etree.ElementTree.fromstring` well-formedness

The pipeline validates every SSML string by parsing it with
`ET.fromstring` before use (`build_ssml_from_narration` lines 451, 460;
`sanitize_ssml` lines 533-538).  We model the parser's accept/reject verdict
with a character-level state machine over the XML subset that matters here:
elements with attributes (single- or double-quoted, whitespace around `=`
allowed), self-closing tags, character data, named and numeric entity
references, and XML 1.0 character validity.  Comments, processing
instructions, doctype declarations, CDATA sections, duplicate-attribute
rejection and the `]]>` prohibition are not modelled; none of the strings the
pipeline constructs contain them. -/

/-- XML white space (production S): space, tab, CR, LF. -/
def xmlS (c : Char) : Bool :=
  (c == ' ') || (c == '\t') || (c == '\n') || (c == '\r')

/-- Valid XML 1.0 characters (production Char): tab, LF, CR and the scalar
ranges `#x20-#xD7FF`, `#xE000-#xFFFD`, `#x10000-#x10FFFF`.  In particular the
ASCII control characters `0x00-0x08`, `0x0B`, `0x0C`, `0x0E-0x1F` are
rejected, which is exactly the set `sanitize_ssml` strips (line 474). -/
def xmlValidChar (c : Char) : Bool :=
  (c == '\t') || (c == '\n') || (c == '\r') ||
    (0x20 ≤ c.toNat && c.toNat ≤ 0xD7FF) ||
    (0xE000 ≤ c.toNat && c.toNat ≤ 0xFFFD) ||
    (0x10000 ≤ c.toNat && c.toNat ≤ 0x10FFFF)

/-- Start character of an XML name (ASCII subset; all names in the pipeline's
markup are ASCII). -/
def xmlNameStartChar (c : Char) : Bool :=
  c.isAlpha || (c == '_') || (c == ':')

/-- Subsequent character of an XML name (ASCII subset). -/
def xmlNameChar (c : Char) : Bool :=
  c.isAlphanum || (c == '_') || (c == ':') || (c == '-') || (c == '.')

/-- Valid code point for a character reference. -/
def xmlValidCode (n : Nat) : Bool :=
  (n == 0x9) || (n == 0xA) || (n == 0xD) ||
    (0x20 ≤ n && n ≤ 0xD7FF) || (0xE000 ≤ n && n ≤ 0xFFFD) ||
    (0x10000 ≤ n && n ≤ 0x10FFFF)

/-- Decimal value of a digit string. -/
def decVal (ds : List Char) : Nat :=
  ds.foldl (fun acc c => acc * 10 + (c.toNat - '0'.toNat)) 0

/-- Value of a hexadecimal digit. -/
def hexDigitVal (c : Char) : Nat :=
  if c.isDigit then c.toNat - '0'.toNat
  else if 'a' ≤ c && c ≤ 'f' then c.toNat - 'a'.toNat + 10
  else c.toNat - 'A'.toNat + 10

/-- Hexadecimal digit test. -/
def isHexDigit (c : Char) : Bool :=
  c.isDigit || ('a' ≤ c && c ≤ 'f') || ('A' ≤ c && c ≤ 'F')

/-- Hexadecimal value of a digit string. -/
def hexVal (ds : List Char) : Nat :=
  ds.foldl (fun acc c => acc * 16 + hexDigitVal c) 0

/-- Acceptable entity bodies (between `&` and `;`): the five predefined
entities and in-range numeric character references. -/
def entityOk (buf : List Char) : Bool :=
  (buf == ['a', 'm', 'p']) || (buf == ['l', 't']) || (buf == ['g', 't']) ||
  (buf == ['q', 'u', 'o', 't']) || (buf == ['a', 'p', 'o', 's']) ||
  (match buf with
   | '#' :: 'x' :: ds => !ds.isEmpty && ds.all isHexDigit && xmlValidCode (hexVal ds)
   | '#' :: ds => !ds.isEmpty && ds.all Char.isDigit && xmlValidCode (decVal ds)
   | _ => false)

/-- Parser mode.  Name buffers are held in reverse order. -/
inductive XMode where
  | content
  | tagStart
  | closeSlash
  | openName (buf : List Char)
  | attrs (tag : List Char)
  | attrName (tag : List Char)
  | attrNameSp (tag : List Char)
  | attrValStart (tag : List Char)
  | attrVal (tag : List Char) (q : Char)
  | attrEntity (tag : List Char) (q : Char) (ebuf : List Char)
  | afterVal (tag : List Char)
  | selfSlash (tag : List Char)
  | closeName (buf : List Char)
  | closeSpace (buf : List Char)
  | contEntity (ebuf : List Char)
deriving Repr, DecidableEq

/-- Parser state: mode, stack of open element names (innermost first,
reversed), and whether a root element has been completed. -/
structure XState where
  mode : XMode
  stack : List (List Char)
  rootDone : Bool
deriving Repr, DecidableEq

/-- One character of XML parsing; `none` is a parse error. -/
def xmlStep (st : XState) (c : Char) : Option XState :=
  match st.mode with
  | .content =>
    if c = '<' then
      match st.stack, st.rootDone with
      | [], true => none
      | _, _ => some { st with mode := .tagStart }
    else if c = '&' then
      match st.stack with
      | [] => none
      | _ => some { st with mode := .contEntity [] }
    else if xmlS c then some st
    else
      match st.stack with
      | [] => none
      | _ => if xmlValidChar c then some st else none
  | .tagStart =>
    if c = '/' then some { st with mode := .closeSlash }
    else if xmlNameStartChar c then some { st with mode := .openName [c] }
    else none
  | .closeSlash =>
    if xmlNameStartChar c then some { st with mode := .closeName [c] } else none
  | .openName buf =>
    if xmlNameChar c then some { st with mode := .openName (c :: buf) }
    else if xmlS c then some { st with mode := .attrs buf }
    else if c = '>' then
      some { mode := .content, stack := buf :: st.stack, rootDone := st.rootDone }
    else if c = '/' then some { st with mode := .selfSlash buf }
    else none
  | .attrs tag =>
    if xmlS c then some st
    else if c = '>' then
      some { mode := .content, stack := tag :: st.stack, rootDone := st.rootDone }
    else if c = '/' then some { st with mode := .selfSlash tag }
    else if xmlNameStartChar c then some { st with mode := .attrName tag }
    else none
  | .attrName tag =>
    if xmlNameChar c then some st
    else if c = '=' then some { st with mode := .attrValStart tag }
    else if xmlS c then some { st with mode := .attrNameSp tag }
    else none
  | .attrNameSp tag =>
    if xmlS c then some st
    else if c = '=' then some { st with mode := .attrValStart tag }
    else none
  | .attrValStart tag =>
    if xmlS c then some st
    else if c = '"' then some { st with mode := .attrVal tag '"' }
    else if c = '\'' then some { st with mode := .attrVal tag '\'' }
    else none
  | .attrVal tag q =>
    if c = q then some { st with mode := .afterVal tag }
    else if c = '&' then some { st with mode := .attrEntity tag q [] }
    else if c = '<' then none
    else if c = '"' ∨ c = '\'' then none
    else if xmlValidChar c then some st
    else none
  | .attrEntity tag q ebuf =>
    if c = ';' then
      if entityOk ebuf.reverse then some { st with mode := .attrVal tag q } else none
    else if xmlNameChar c || c = '#' then
      some { st with mode := .attrEntity tag q (c :: ebuf) }
    else none
  | .afterVal tag =>
    if xmlS c then some { st with mode := .attrs tag }
    else if c = '>' then
      some { mode := .content, stack := tag :: st.stack, rootDone := st.rootDone }
    else if c = '/' then some { st with mode := .selfSlash tag }
    else none
  | .selfSlash tag =>
    if c = '>' then
      some { mode := .content, stack := st.stack,
             rootDone := match st.stack with | [] => true | _ :: _ => st.rootDone }
    else none
  | .closeName buf =>
    if xmlNameChar c then some { st with mode := .closeName (c :: buf) }
    else if xmlS c then some { st with mode := .closeSpace buf }
    else if c = '>' then
      match st.stack with
      | [] => none
      | top :: rest =>
        if top = buf then
          some { mode := .content, stack := rest,
                 rootDone := match rest with | [] => true | _ :: _ => st.rootDone }
        else none
    else none
  | .closeSpace buf =>
    if xmlS c then some st
    else if c = '>' then
      match st.stack with
      | [] => none
      | top :: rest =>
        if top = buf then
          some { mode := .content, stack := rest,
                 rootDone := match rest with | [] => true | _ :: _ => st.rootDone }
        else none
    else none
  | .contEntity ebuf =>
    if c = ';' then
      if entityOk ebuf.reverse then some { st with mode := .content } else none
    else if xmlNameChar c || c = '#' then
      some { st with mode := .contEntity (c :: ebuf) }
    else none

/-- Run the parser over characters, propagating failure. -/
def xmlRunOpt (acc : Option XState) (cs : List Char) : Option XState :=
  cs.foldl (fun a c => a.bind (fun s => xmlStep s c)) acc

/-- Initial parser state. -/
def xmlInit : XState := ⟨.content, [], false⟩

/-- The verdict of parsing a whole document: accepted iff the machine ends in
content mode with an empty stack after exactly one completed root element. -/
def xmlOk (s : String) : Bool :=
  match xmlRunOpt (some xmlInit) s.data with
  | some st =>
    (match st.mode with | .content => true | _ => false) &&
      st.stack.isEmpty && st.rootDone
  | none => false

/-! ## Markup Builder (`build_ssml_from_narration`, lines 391-461) -/

/-- `xml.sax.saxutils.escape`: rewrite `&` to `&amp;`, `<` to `&lt;`,
`>` to `&gt;`. -/
def escapeCh : List Char → List Char
  | [] => []
  | c :: cs =>
    if c = '&' then '&' :: 'a' :: 'm' :: 'p' :: ';' :: escapeCh cs
    else if c = '<' then '&' :: 'l' :: 't' :: ';' :: escapeCh cs
    else if c = '>' then '&' :: 'g' :: 't' :: ';' :: escapeCh cs
    else c :: escapeCh cs

/-- `<break time="300ms"/>` (blank-line pause, line 408). -/
def br300 : List Char := "<break time=\"300ms\"/>".data

/-- `<break time="500ms"/>` (`[PAUSE]` directive, line 413). -/
def br500 : List Char := "<break time=\"500ms\"/>".data

/-- `<break time="200ms"/>` (end-of-line pause, line 415). -/
def br200 : List Char := "<break time=\"200ms\"/>".data

/-- `escaped_ln.replace("[PAUSE]", '<break time="500ms"/>')` (line 413),
applied after escaping. -/
def replacePause : List Char → List Char
  | '[' :: 'P' :: 'A' :: 'U' :: 'S' :: 'E' :: ']' :: cs => br500 ++ replacePause cs
  | c :: cs => c :: replacePause cs
  | [] => []

/-- `text.replace("[HOST]", "")` (line 402, first pass). -/
def removeHost : List Char → List Char
  | '[' :: 'H' :: 'O' :: 'S' :: 'T' :: ']' :: cs => removeHost cs
  | c :: cs => c :: removeHost cs
  | [] => []

/-- `.replace("[EXPERT]", "")` (line 402, second pass). -/
def removeExpert : List Char → List Char
  | '[' :: 'E' :: 'X' :: 'P' :: 'E' :: 'R' :: 'T' :: ']' :: cs => removeExpert cs
  | c :: cs => c :: removeExpert cs
  | [] => []

/-- `str.splitlines()` restricted to the `\n`, `\r\n`, `\r` line boundaries
(the exotic Unicode boundaries Python also recognises play no role here);
`buf` is the current line, reversed.  A terminator ends a line; a final
unterminated line is kept; the empty string has no lines. -/
def splitLinesAux : List Char → List Char → List (List Char)
  | [], buf => if buf.isEmpty then [] else [buf.reverse]
  | '\r' :: '\n' :: cs, buf => buf.reverse :: splitLinesAux cs []
  | '\n' :: cs, buf => buf.reverse :: splitLinesAux cs []
  | '\r' :: cs, buf => buf.reverse :: splitLinesAux cs []
  | c :: cs, buf => splitLinesAux cs (c :: buf)

/-- `" ".join` at the character level. -/
def joinSpace : List (List Char) → List Char
  | [] => []
  | [p] => p
  | p :: q :: ps => p ++ ' ' :: joinSpace (q :: ps)

/-- `_normalize_text` (lines 400-416): strip role markers, split into lines,
right-strip each line, turn blank lines into a 300 ms break, escape each
non-blank line THEN substitute `[PAUSE]` with a 500 ms break and append a
200 ms break, join with spaces and strip. -/
def normalizeTextCh (text : List Char) : List Char :=
  let lines := (splitLinesAux (removeExpert (removeHost text)) []).map
    (fun l => l.rdropWhile pyWS)
  let parts := lines.flatMap (fun ln =>
    if (pyStripCh ln).isEmpty then [br300]
    else [replacePause (escapeCh ln), br200])
  pyStripCh (joinSpace parts)

/-- The fixed `<speak ...>` root open tag (lines 418-423). -/
def speakOpen : List Char :=
  ("<speak version=\"1.0\" xmlns=\"http://www.w3.org/2001/10/synthesis\" " ++
    "xmlns:mstts=\"http://www.w3.org/2001/mstts\" xml:lang=\"en-US\">").data

/-- `</speak>` (line 424). -/
def speakClose : List Char := "</speak>".data

/-- `<prosody rate="-5%">` (lines 447, 458). -/
def prosodyOpen : List Char := "<prosody rate=\"-5%\">".data

/-- `</prosody>`. -/
def prosodyClose : List Char := "</prosody>".data

/-- `<voice name="{v}">` (lines 448, 459). -/
def voiceOpen (v : String) : List Char :=
  "<voice name=\"".data ++ v.data ++ "\">".data

/-- `</voice>`. -/
def voiceClose : List Char := "</voice>".data

/-- Items of `re.split(r"(\[HOST\]|\[EXPERT\])", narration)` (line 432):
the marker tokens plus the characters of the pieces between them. -/
inductive HEItem where
  | host
  | expert
  | chr (c : Char)
deriving Repr, DecidableEq

/-- Leftmost-first scan for the two role markers (`[HOST]` tried before
`[EXPERT]`, as in the regex alternation). -/
def tokenizeHE : List Char → List HEItem
  | '[' :: 'H' :: 'O' :: 'S' :: 'T' :: ']' :: cs => .host :: tokenizeHE cs
  | '[' :: 'E' :: 'X' :: 'P' :: 'E' :: 'R' :: 'T' :: ']' :: cs => .expert :: tokenizeHE cs
  | c :: cs => .chr c :: tokenizeHE cs
  | [] => []

/-- The token loop of the podcast branch (lines 434-448): each text piece
whose `strip()` is non-empty becomes a chunk attributed to the current role
(`true` = HOST); markers switch the role; `buf` is the current piece,
reversed. -/
def collectHE : List HEItem → Bool → List Char → List (Bool × List Char)
  | [], role, buf =>
    if (pyStripCh buf.reverse).isEmpty then [] else [(role, buf.reverse)]
  | .host :: items, role, buf =>
    (if (pyStripCh buf.reverse).isEmpty then [] else [(role, buf.reverse)]) ++
      collectHE items true []
  | .expert :: items, role, buf =>
    (if (pyStripCh buf.reverse).isEmpty then [] else [(role, buf.reverse)]) ++
      collectHE items false []
  | .chr c :: items, role, buf => collectHE items role (c :: buf)

/-- One podcast chunk:
`<voice name="{voice}"><prosody rate="-5%">{inner}</prosody></voice>`. -/
def podcastChunk (hostV expertV : String) (rc : Bool × List Char) : List Char :=
  voiceOpen (if rc.1 then hostV else expertV) ++ prosodyOpen ++
    normalizeTextCh rc.2 ++ prosodyClose ++ voiceClose

/-- `build_ssml_from_narration` (lines 391-461).  The final
`ET.fromstring(ssml)` validation is modelled by `xmlOk`; its `ParseError` is
`Except.error`. -/
def build_ssml_from_narration (narration : String) (audio_format : String)
    (instructional_voice : String := "en-US-AndrewNeural")
    (podcast_host_voice : String := "en-US-GuyNeural")
    (podcast_expert_voice : String := "en-US-TonyNeural") :
    Except String String :=
  if audio_format = "podcast" then
    let chunks := (collectHE (tokenizeHE narration.data) true []).map
      (podcastChunk podcast_host_voice podcast_expert_voice)
    let ssml : String := ⟨speakOpen ++ joinSpace chunks ++ speakClose⟩
    if xmlOk ssml then .ok ssml else .error "SSML parse error"
  else
    let inner := normalizeTextCh narration.data
    let ssml : String := ⟨speakOpen ++ voiceOpen instructional_voice ++
      prosodyOpen ++ inner ++ prosodyClose ++ voiceClose ++ speakClose⟩
    if xmlOk ssml then .ok ssml else .error "SSML parse error"

/-! ## Markup Sanitizer (`sanitize_ssml`, lines 464-540)

The regex pipeline is embedded scanner by scanner.  The voice-name pattern
`(<voice\b[^>]*\bname=)(['\x22])([^'\x22]+)(\2)` (IGNORECASE) is modelled
including its greedy backtracking: `[^>]*` matches the longest prefix of
non-`>` characters for which the remainder of the pattern still matches, so
the LAST viable `name=` occurrence before the tag's first `>` wins. -/

/-- Word characters for the regex `\b` boundary (ASCII). -/
def wordChar (c : Char) : Bool := c.isAlphanum || (c == '_')

/-- ASCII control characters removed by `sanitize_ssml` line 474:
`[\x00-\x08\x0B\x0C\x0E-\x1F]`. -/
def ctrlBad (c : Char) : Bool :=
  (c.toNat ≤ 0x08) || (c.toNat == 0x0B) || (c.toNat == 0x0C) ||
    (0x0E ≤ c.toNat && c.toNat ≤ 0x1F)

/-- Case-insensitive literal prefix match (pattern given lowercase); returns
the rest of the input on success. -/
def ciPrefix? : List Char → List Char → Option (List Char)
  | [], cs => some cs
  | _ :: _, [] => none
  | p :: ps, c :: cs => if c.toLower = p then ciPrefix? ps cs else none

/-- Skip to just past the first `>` (the `[^>]*>` tail of the `<lang>`
wrapper pattern). -/
def dropToGt : List Char → Option (List Char)
  | [] => none
  | '>' :: r => some r
  | _ :: r => dropToGt r

/-- Try to match `</?lang\b[^>]*>` (IGNORECASE) at the start; returns the
rest after the match. -/
def dropLangTagAt (cs : List Char) : Option (List Char) :=
  match cs with
  | '<' :: rest =>
    let rest2 := match rest with
      | '/' :: r => r
      | _ => rest
    match ciPrefix? ['l', 'a', 'n', 'g'] rest2 with
    | none => none
    | some r3 =>
      match r3 with
      | [] => none
      | c :: _ => if wordChar c then none else dropToGt r3
  | _ => none

/-- `re.sub(r"</?lang\b[^>]*>", "", ...)` (line 477): remove `<lang>`
wrappers, keeping inner content.  Fuel-driven leftmost scan. -/
def removeLangTags : Nat → List Char → List Char
  | 0, cs => cs
  | _, [] => []
  | fuel + 1, c :: cs =>
    match dropLangTagAt (c :: cs) with
    | some rest => removeLangTags fuel rest
    | none => c :: removeLangTags fuel cs

/-- Match `name=(['\x22])([^'\x22]+)\2` at the start (ci on `name=`):
returns quote, value, rest after the closing quote. -/
def nameEqAt (cs : List Char) : Option (Char × List Char × List Char) :=
  match ciPrefix? ['n', 'a', 'm', 'e', '='] cs with
  | none => none
  | some r =>
    match r with
    | [] => none
    | q :: r2 =>
      if q = '"' ∨ q = '\'' then
        let val := r2.takeWhile (fun c => !(c == '"') && !(c == '\''))
        match r2.drop val.length with
        | [] => none
        | q2 :: r4 => if q2 = q ∧ val ≠ [] then some (q, val, r4) else none
      else none

/-- Greedy search for the last viable `\bname=...` start position `j ≤ p`
within the non-`>` run of `s6` (`p` counts down from the run length). -/
def findNameJ (s6 : List Char) : Nat → Option (Nat × Char × List Char × List Char)
  | 0 => none
  | p + 1 =>
    match s6[p]? with
    | some cprev =>
      if wordChar cprev then findNameJ s6 p
      else
        match nameEqAt (s6.drop (p + 1)) with
        | some (q, val, r4) => some (p + 1, q, val, r4)
        | none => findNameJ s6 p
    | none => findNameJ s6 p

/-- Match the whole voice pattern at the start of `cs`; returns
`(group 1, quote, value, rest)`. -/
def matchVoiceAt (cs : List Char) : Option (List Char × Char × List Char × List Char) :=
  match ciPrefix? ['<', 'v', 'o', 'i', 'c', 'e'] cs with
  | none => none
  | some s6 =>
    match s6 with
    | [] => none
    | c :: _ =>
      if wordChar c then none
      else
        match findNameJ s6 (s6.takeWhile (fun d => !(d == '>'))).length with
        | none => none
        | some (j, q, val, rest) => some (cs.take (6 + j + 5), q, val, rest)

/-- The voice-name substitution loop of `re.sub` (lines 511-524), also
returning the list of voice values written at each matched position
(`match.group(0)` unchanged when the value is allow-listed, otherwise
group 1 + quote + default voice + quote). -/
def subVoicesAux (allowed : List String) (defaultVoice : String) :
    Nat → List Char → List Char × List String
  | 0, cs => (cs, [])
  | _ + 1, [] => ([], [])
  | fuel + 1, c :: cs =>
    match matchVoiceAt (c :: cs) with
    | some (g1, q, val, rest) =>
      let out := if (⟨val⟩ : String) ∈ allowed then val else defaultVoice.data
      (g1 ++ q :: out ++ q :: (subVoicesAux allowed defaultVoice fuel rest).1,
        (⟨out⟩ : String) :: (subVoicesAux allowed defaultVoice fuel rest).2)
    | none =>
      (c :: (subVoicesAux allowed defaultVoice fuel cs).1,
        (subVoicesAux allowed defaultVoice fuel cs).2)

/-- Does the text after a `&` start with a recognised entity reference
(`amp; lt; gt; quot; apos; #\d+; #x[0-9A-Fa-f]+;`)? -/
def entRefAt (cs : List Char) : Bool :=
  (['a', 'm', 'p', ';'].isPrefixOf cs) || (['l', 't', ';'].isPrefixOf cs) ||
  (['g', 't', ';'].isPrefixOf cs) || (['q', 'u', 'o', 't', ';'].isPrefixOf cs) ||
  (['a', 'p', 'o', 's', ';'].isPrefixOf cs) ||
  (match cs with
   | '#' :: 'x' :: r =>
     let ds := r.takeWhile isHexDigit
     !ds.isEmpty && ((r.drop ds.length).take 1 == [';'])
   | '#' :: r =>
     let ds := r.takeWhile Char.isDigit
     !ds.isEmpty && ((r.drop ds.length).take 1 == [';'])
   | _ => false)

/-- `re.sub(r"&(?!amp;|lt;|gt;|quot;|apos;|#\d+;|#x[0-9A-Fa-f]+;)", "&amp;", ...)`
(lines 527-531): escape stray ampersands. -/
def ampEscape : List Char → List Char
  | [] => []
  | '&' :: cs =>
    if entRefAt cs then '&' :: ampEscape cs
    else '&' :: 'a' :: 'm' :: 'p' :: ';' :: ampEscape cs
  | c :: cs => c :: ampEscape cs

/-- Non-greedy `.*?` up to the closing quote `q` (`.` does not match a
newline); returns value and rest. -/
def dotValTo (q : Char) : List Char → Option (List Char × List Char)
  | [] => none
  | c :: cs =>
    if c = q then some ([], cs)
    else if c = '\n' then none
    else match dotValTo q cs with
      | some (v, r) => some (c :: v, r)
      | none => none

/-- Match `xml:lang=(['\x22]).*?\2` at the start (ci); returns quote and rest
after the closing quote. -/
def xmlLangEqAt (cs : List Char) : Option (Char × List Char) :=
  match ciPrefix? ['x', 'm', 'l', ':', 'l', 'a', 'n', 'g', '='] cs with
  | none => none
  | some r =>
    match r with
    | [] => none
    | q :: r2 =>
      if q = '"' ∨ q = '\'' then
        match dotValTo q r2 with
        | some (_, rest) => some (q, rest)
        | none => none
      else none

/-- Greedy search for the last viable `\bxml:lang=` start within the
non-`>` run. -/
def findLangJ (s6 : List Char) : Nat → Option (Nat × Char × List Char)
  | 0 => none
  | p + 1 =>
    match s6[p]? with
    | some cprev =>
      if wordChar cprev then findLangJ s6 p
      else
        match xmlLangEqAt (s6.drop (p + 1)) with
        | some (q, rest) => some (p + 1, q, rest)
        | none => findLangJ s6 p
    | none => findLangJ s6 p

/-- Match `(<speak\b[^>]*\bxml:lang=)(['\x22]).*?\2` at the start. -/
def matchSpeakLangFullAt (cs : List Char) : Option (List Char × Char × List Char) :=
  match ciPrefix? ['<', 's', 'p', 'e', 'a', 'k'] cs with
  | none => none
  | some s6 =>
    match s6 with
    | [] => none
    | c :: _ =>
      if wordChar c then none
      else
        match findLangJ s6 (s6.takeWhile (fun d => !(d == '>'))).length with
        | none => none
        | some (j, q, rest) => some (cs.take (6 + j + 9), q, rest)

/-- Does `<speak\b[^>]*\bxml:lang=` (ci) match anywhere (`re.search`,
line 481)?  The trailing quote/value is not part of the search pattern. -/
def speakLangHereB (cs : List Char) : Bool :=
  match ciPrefix? ['<', 's', 'p', 'e', 'a', 'k'] cs with
  | none => false
  | some s6 =>
    match s6 with
    | [] => false
    | c :: _ =>
      if wordChar c then false
      else Nat.rec false
        (fun p acc =>
          (match s6[p]? with
           | some cprev =>
             !wordChar cprev &&
               (ciPrefix? ['x', 'm', 'l', ':', 'l', 'a', 'n', 'g', '=']
                 (s6.drop (p + 1))).isSome
           | none => false) || acc)
        (s6.takeWhile (fun d => !(d == '>'))).length

/-- Scan the whole string for the `<speak ... xml:lang=` search pattern. -/
def searchSpeakLang : List Char → Bool
  | [] => false
  | c :: cs => speakLangHereB (c :: cs) || searchSpeakLang cs

/-- `re.sub` of the full speak/xml:lang pattern with `\1\2en-US\2`
(lines 482-487), all occurrences. -/
def normSpeakLang : Nat → List Char → List Char
  | 0, cs => cs
  | _ + 1, [] => []
  | fuel + 1, c :: cs =>
    match matchSpeakLangFullAt (c :: cs) with
    | some (g1, q, rest) =>
      g1 ++ q :: "en-US".data ++ q :: normSpeakLang fuel rest
    | none => c :: normSpeakLang fuel cs

/-- `re.sub(r"<speak\b", '<speak xml:lang="en-US"', ..., count=1)`
(lines 489-495): insert the language attribute at the first `<speak`. -/
def insertSpeakLang : Nat → List Char → List Char
  | 0, cs => cs
  | _ + 1, [] => []
  | fuel + 1, c :: cs =>
    match ciPrefix? ['<', 's', 'p', 'e', 'a', 'k'] (c :: cs) with
    | some s6 =>
      match s6 with
      | [] => "<speak xml:lang=\"en-US\"".data
      | c2 :: _ =>
        if wordChar c2 then c :: insertSpeakLang fuel cs
        else "<speak xml:lang=\"en-US\"".data ++ s6
    | none => c :: insertSpeakLang fuel cs

/-- The hard-coded allow-list of lines 499-505. -/
def commonVoices : List String :=
  ["en-US-GuyNeural", "en-US-TonyNeural", "en-US-AndrewNeural",
   "en-US-BrianNeural", "en-US-AvaNeural", "en-US-JennyNeural",
   "en-US-AriaNeural", "en-US-Andrew:DragonHDLatestNeural",
   "en-US-Ava:DragonHDLatestNeural", "en-US-Brian:DragonHDLatestNeural",
   "en-US-Emma:DragonHDLatestNeural"]

/-- `allowed_voices = common_voices | {instructional, host, expert}`
(line 506). -/
def allowedVoices (iv hv ev : String) : List String :=
  commonVoices ++ [iv, hv, ev]

/-- Stages 1-3 of `sanitize_ssml`: strip, control-character removal, `<lang>`
wrapper removal, forcing `xml:lang="en-US"` on the `speak` root. -/
def sanitizePre (ssml : String) : List Char :=
  let s1 := (pyStripCh ssml.data).filter (fun c => !ctrlBad c)
  let s2 := removeLangTags s1.length s1
  if searchSpeakLang s2 then normSpeakLang s2.length s2
  else insertSpeakLang s2.length s2

/-- `sanitize_ssml` (lines 464-540): stages 1-3, voice-name allow-list
substitution (default voice = the instructional voice, line 509), ampersand
escaping, then the `ET.fromstring` validation; a parse failure raises with a
truncated single-line snippet. -/
def sanitize_ssml (ssml : String) (audio_format : String)
    (instructional_voice : String := "en-US-AndrewNeural")
    (podcast_host_voice : String := "en-US-GuyNeural")
    (podcast_expert_voice : String := "en-US-TonyNeural") :
    Except String String :=
  let s3 := sanitizePre ssml
  let s4 := (subVoicesAux
    (allowedVoices instructional_voice podcast_host_voice podcast_expert_voice)
    instructional_voice s3.length s3).1
  let s5 := ampEscape s4
  if xmlOk ⟨s5⟩ then .ok ⟨s5⟩
  else .error ⟨"Generated SSML is not well-formed XML. Snippet: ".data ++
    (s5.take 500).map (fun c => if c = '\n' then ' ' else c)⟩

/-- Attribute triples `(tag, attr, value)` of a markup string: the reading of
"voice-name attribute value" used to state the sanitizer claim.  Scans tags
and their `attr = 'value'` pairs (whitespace around `=` allowed, as in XML). -/
def readAttrs (tag : List Char) : Nat → List Char →
    List (String × String × String) × List Char
  | 0, cs => ([], cs)
  | _ + 1, [] => ([], [])
  | fuel + 1, c :: cs =>
    if xmlS c then readAttrs tag fuel cs
    else if c = '>' ∨ c = '/' then ([], c :: cs)
    else
      let aname := (c :: cs).takeWhile
        (fun d => !(d == '=') && !xmlS d && !(d == '>') && !(d == '/'))
      let r2 := ((c :: cs).drop aname.length).dropWhile xmlS
      match r2 with
      | '=' :: r3 =>
        let r4 := r3.dropWhile xmlS
        (match r4 with
         | q :: r5 =>
           if q = '"' ∨ q = '\'' then
             let v := r5.takeWhile (fun d => !(d == q))
             let rec1 := readAttrs tag fuel (r5.drop (v.length + 1))
             ((⟨tag⟩, ⟨aname⟩, ⟨v⟩) :: rec1.1, rec1.2)
           else readAttrs tag fuel r5
         | [] => ([], []))
      | _ => readAttrs tag fuel r2

/-- Top-level attribute scan. -/
def xmlAttrsAux : Nat → List Char → List (String × String × String)
  | 0, _ => []
  | _ + 1, [] => []
  | fuel + 1, c :: cs =>
    if c = '<' then
      let tag := cs.takeWhile xmlNameChar
      if tag.isEmpty then xmlAttrsAux fuel cs
      else
        let rec1 := readAttrs tag (cs.drop tag.length).length (cs.drop tag.length)
        rec1.1 ++ xmlAttrsAux fuel rec1.2
    else xmlAttrsAux fuel cs

/-- The `name` attribute values of `voice` elements in a markup string. -/
def xmlVoiceNames (s : String) : List String :=
  (xmlAttrsAux s.data.length s.data).filterMap
    (fun t => if t.1 = "voice" ∧ t.2.1 = "name" then some t.2.2 else none)

/-- Characters that may appear verbatim inside a double- or single-quoted
attribute value: valid, no quotes, no `<`, no `&`.  All voice names used by
the pipeline satisfy this. -/
def attrSafeChar (c : Char) : Bool :=
  xmlValidChar c && !(c == '"') && !(c == '\'') && !(c == '<') && !(c == '&')

/-- Shape of the character data the Markup Builder places inside elements:
interleavings of safe characters, the three escape entities, and the three
fixed `<break/>` tags.  `escape`-then-`replace("[PAUSE]", ...)` output and
everything `_normalize_text` builds from it has this shape. -/
inductive SafeB : List Char → Prop where
  | nil : SafeB []
  | chr {c : Char} {cs : List Char} : xmlValidChar c = true → c ≠ '<' → c ≠ '&' →
      SafeB cs → SafeB (c :: cs)
  | amp {cs : List Char} : SafeB cs → SafeB ('&' :: 'a' :: 'm' :: 'p' :: ';' :: cs)
  | ltE {cs : List Char} : SafeB cs → SafeB ('&' :: 'l' :: 't' :: ';' :: cs)
  | gtE {cs : List Char} : SafeB cs → SafeB ('&' :: 'g' :: 't' :: ';' :: cs)
  | brk3 {cs : List Char} : SafeB cs → SafeB (br300 ++ cs)
  | brk5 {cs : List Char} : SafeB cs → SafeB (br500 ++ cs)
  | brk2 {cs : List Char} : SafeB cs → SafeB (br200 ++ cs)

/-- A character-list piece that the XML machine passes through while
preserving a content-mode state with a non-empty element stack. -/
abbrev FoldsThrough (piece : List Char) : Prop :=
  ∀ (x : List Char) (xs : List (List Char)) (rd : Bool) (rest : List Char),
    xmlRunOpt (some ⟨.content, x :: xs, rd⟩) (piece ++ rest)
      = xmlRunOpt (some ⟨.content, x :: xs, rd⟩) rest

/-! ## Synthesis and filesystem model (`synthesize_audio.py`)

Audio files are byte lists; the filesystem is an association list from path
strings to contents.  `synthesize_ssml` is abstracted over a stub
`synth : String → Option AudioBytes` standing for the Speech service: `some
bytes` models a completed synthesis that wrote `bytes` to the output file,
`none` a cancelled one (which writes nothing).  Durations follow the source
formula `file_size_bytes * 8 / 192000`, computed in `ℚ`. -/

/-- MP3 file contents as a list of byte values. -/
abbrev AudioBytes := List Nat

/-- A filesystem: association list from paths to file contents. -/
abbrev FS := List (String × AudioBytes)

/-- Contents of the file at path `q`, if present. -/
def fsLookup : FS → String → Option AudioBytes
  | [], _ => none
  | e :: rest, q => if e.1 = q then some e.2 else fsLookup rest q

/-- `os.remove p` (idempotent in the model: removing a missing file is a
no-op, matching the `try/except` around each removal in the source). -/
def fsRemove : FS → String → FS
  | [], _ => []
  | e :: rest, p => if e.1 = p then fsRemove rest p else e :: fsRemove rest p

/-- `open(p, "wb").write(b)`: replace any existing file at `p`. -/
def fsWrite (fs : FS) (p : String) (b : AudioBytes) : FS :=
  (p, b) :: fsRemove fs p

/-- `f"{n:02d}"`. -/
def pad2 (n : Nat) : String := if n < 10 then "0" ++ toString n else toString n

/-- `f"{n:03d}"`. -/
def pad3 (n : Nat) : String :=
  if n < 10 then "00" ++ toString n
  else if n < 100 then "0" ++ toString n
  else toString n

/-- Split a path into (directory prefix including the final `/`, filename). -/
def splitDirFile (p : List Char) : List Char × List Char :=
  let file := (p.reverse.takeWhile (fun c => !(c == '/'))).reverse
  (p.take (p.length - file.length), file)

/-- `pathlib` stem/suffix of a filename: split at the last `.`, provided it is
not the leading character; otherwise the suffix is empty. -/
def splitStemSuffix (fn : List Char) : List Char × List Char :=
  let pre := (fn.reverse.takeWhile (fun c => !(c == '.'))).length
  if pre + 1 < fn.length then
    (fn.take (fn.length - pre - 1), fn.drop (fn.length - pre - 1))
  else (fn, [])

/-- `base.with_name(f"{base.stem}.part{idx:02d}{base.suffix}")`
(`synthesize_audio.py` line 132). -/
def partPath (output_path : String) (idx : Nat) : String :=
  let df := splitDirFile output_path.data
  let ss := splitStemSuffix df.2
  ⟨df.1 ++ ss.1 ++ (".part" ++ pad2 idx).data ++ ss.2⟩

/-- `f"{certification_id}_{audio_format}_{episode_number:03d}.mp3"`
(`synthesize_audio.py` line 180, `generate_episodes.py` line 807). -/
def audioFilename (certification_id audio_format : String)
    (episode_number : Nat) : String :=
  certification_id ++ "_" ++ audio_format ++ "_" ++ pad3 episode_number ++ ".mp3"

/-- `synthesize_ssml` (`synthesize_audio.py` lines 76-113): on success the
Speech SDK has written the MP3 to `output_path` and the duration is
`size * 8 / 192000`; on cancellation `(False, 0)` with no write. -/
def synthesize_ssml (synth : String → Option AudioBytes)
    (ssml_content output_path : String) (fs : FS) : FS × Bool × ℚ :=
  match synth ssml_content with
  | some bytes =>
    (fsWrite fs output_path bytes, true, (bytes.length * 8 : ℚ) / 192000)
  | none => (fs, false, 0)

/-- The per-segment loop of `synthesize_audio_segments` (lines 127-155),
carrying the accumulated temp paths (newest first) and total duration.  After
the last segment the parts are concatenated into `output_path` and the temp
parts removed; on a failed segment the accumulated temp parts are removed and
`(False, 0)` returned. -/
def segLoop (synth : String → Option AudioBytes) (output_path : String) :
    List String → FS → Nat → List String → ℚ → FS × Bool × ℚ
  | [], fs, _, temps, total =>
    let bytes := (temps.reverse.map (fun p => (fsLookup fs p).getD [])).flatten
    (temps.foldl fsRemove (fsWrite fs output_path bytes), true, total)
  | seg :: rest, fs, idx, temps, total =>
    let pp := partPath output_path idx
    let r := synthesize_ssml synth seg pp fs
    if r.2.1 then
      segLoop synth output_path rest r.1 (idx + 1) (pp :: temps) (total + r.2.2)
    else (temps.foldl fsRemove r.1, false, 0)

/-- `synthesize_audio_segments` (`synthesize_audio.py` lines 116-157). -/
def synthesize_audio_segments (synth : String → Option AudioBytes)
    (ssml_segments : List String) (output_path : String) (fs : FS) :
    FS × Bool × ℚ :=
  if ssml_segments.isEmpty then (fs, false, 0)
  else segLoop synth output_path ssml_segments fs 1 [] 0

/-- The dict returned by `synthesize_audio` / `synthesize_audio_with_chunking`. -/
structure AudioResult where
  audio_path : String
  duration_seconds : ℚ
  filename : String
deriving Repr, DecidableEq

/-- `synthesize_audio` (`synthesize_audio.py` lines 158-196): single
synthesis call into a fresh temp file; raises `RuntimeError` on failure.
`temp_dir` stands for the `tempfile.mkdtemp()` result. -/
def synthesize_audio (synth : String → Option AudioBytes)
    (ssml_content : String) (episode_number : Nat)
    (certification_id audio_format temp_dir : String) (fs : FS) :
    FS × Except String AudioResult :=
  let filename := audioFilename certification_id audio_format episode_number
  let output_path := temp_dir ++ "/" ++ filename
  let r := synthesize_ssml synth ssml_content output_path fs
  if r.2.1 then (r.1, .ok ⟨output_path, r.2.2, filename⟩)
  else (r.1, .error ("Audio synthesis failed for episode "
    ++ toString episode_number))

/-- Python list comprehension over a fallible function: first raised error
propagates. -/
def mapExcept (f : α → Except ε β) : List α → Except ε (List β)
  | [] => .ok []
  | a :: as =>
    match f a with
    | .error e => .error e
    | .ok b =>
      match mapExcept f as with
      | .error e => .error e
      | .ok bs => .ok (b :: bs)

/-- `synthesize_audio_with_chunking` (`generate_episodes.py` lines 784-821).
As for the Segmenter, the narration is given as its raw paragraph-block list
(the pieces of `re.split(r"\n\s*\n", narration)`); since those separators are
whitespace, `len(narration.split())` is the sum of the blocks' word counts.
Each segment's markup is built with `build_ssml_from_narration`'s default
voices, exactly as in the source. -/
def synthesize_audio_with_chunking (synth : String → Option AudioBytes)
    (narrParas : List String) (ssml : String) (episode_number : Nat)
    (certification_id audio_format temp_dir : String) (fs : FS) :
    FS × Except String AudioResult :=
  let narration_words := (narrParas.map wordCount).sum
  if narration_words ≤ 900 then
    synthesize_audio synth ssml episode_number certification_id audio_format
      temp_dir fs
  else
    let segments := split_narration_for_tts narrParas 850
    match mapExcept (fun seg => build_ssml_from_narration seg audio_format)
        segments with
    | .error e => (fs, .error e)
    | .ok ssml_segments =>
      let filename := audioFilename certification_id audio_format episode_number
      let output_path := temp_dir ++ "/" ++ filename
      let r := synthesize_audio_segments synth ssml_segments output_path fs
      if r.2.1 then (r.1, .ok ⟨output_path, r.2.2, filename⟩)
      else (r.1, .error ("Audio synthesis failed for episode "
        ++ toString episode_number))

/-! ## Continuation controller (`process_skill_domain`, lines 598-755)

The generation engine (`generate_narration`), markup conversion, synthesis,
upload and retrieval are external collaborators and appear as function
parameters; everything else — the part loop with its `max_parts = 5` bound,
the length-retry loop, marker handling, title construction — is translated
from the source.  The float growth `int(min_words * 1.15)` is abstracted as a
`grow : Nat → Nat` parameter. -/

/-- `CONTINUATION_MARKER` (line 63). -/
def CONTINUATION_MARKER : String := "[END OF PART - CONTINUE IN NEXT PART]"

/-- The marker's characters. -/
def markerChars : List Char := CONTINUATION_MARKER.data

/-- Python's `marker in narration`. -/
def hasMarker : List Char → Bool
  | [] => false
  | c :: cs => markerChars.isPrefixOf (c :: cs) || hasMarker cs

/-- `needs_continuation` (lines 66-68). -/
def needs_continuation (narration : String) : Bool := hasMarker narration.data

/-- `str.replace(marker, "")`: remove non-overlapping occurrences left to
right, skipping past each match.  Fuel-based scan; fuel `= length` suffices. -/
def removeMarker : Nat → List Char → List Char
  | 0, cs => cs
  | _ + 1, [] => []
  | fuel + 1, c :: cs =>
    if markerChars.isPrefixOf (c :: cs) then
      removeMarker fuel ((c :: cs).drop markerChars.length)
    else c :: removeMarker fuel cs

/-- `clean_narration` (lines 71-73): remove the marker, then `strip()`. -/
def clean_narration (narration : String) : String :=
  pyStrip ⟨removeMarker narration.data.length narration.data⟩

/-- The arguments `process_skill_domain` / `prepare_episode` pass to the
generation engine that vary across calls. -/
structure GenRequest where
  episode_number : Nat
  part_number : Nat
  is_continuation : Bool
  topics_covered_so_far : String
  min_words : Nat
deriving Repr, DecidableEq

/-- The length-retry loop shared by `process_skill_domain` (lines 658-687)
and `prepare_episode` (lines 862-885): generate, clean, and retry with grown
`min_words` while the word count is short and retries remain.  Returns the
cleaned narration of the final attempt together with `needs_continuation` of
that attempt's raw output (which `prepare_episode` discards). -/
def lengthRetryLoop (gen : GenRequest → String) (grow : Nat → Nat)
    (episode_number part_number : Nat) (is_continuation : Bool)
    (topics_covered_so_far : String) : Nat → Nat → String × Bool
  | min_words, 0 =>
    let raw := gen ⟨episode_number, part_number, is_continuation,
      topics_covered_so_far, min_words⟩
    (clean_narration raw, needs_continuation raw)
  | min_words, retries + 1 =>
    let raw := gen ⟨episode_number, part_number, is_continuation,
      topics_covered_so_far, min_words⟩
    let narration := clean_narration raw
    if min_words ≤ wordCount narration then (narration, needs_continuation raw)
    else lengthRetryLoop gen grow episode_number part_number is_continuation
      topics_covered_so_far (grow min_words) retries

/-- The dict returned by `upload_to_blob`. -/
structure UploadResult where
  audio_url : String
  script_url : String
deriving Repr, DecidableEq

/-- The episode document built by `save_episode` (fields relevant to the
claims; the remaining metadata fields do not affect any claim). -/
structure EpisodeDoc where
  id : String
  sequenceNumber : Nat
  skillDomain : String
  title : String
  audioUrl : String
  scriptUrl : String
  durationSeconds : ℚ
deriving Repr, DecidableEq

/-- `f"{certification_id}-{audio_format}-{episode_number:03d}"`, the document
id used both by `episode_exists` (line 588) and `save_episode`
(`save_episode.py`). -/
def epId (certification_id audio_format : String) (episode_number : Nat) :
    String :=
  certification_id ++ "-" ++ audio_format ++ "-" ++ pad3 episode_number

/-- `save_episode` (`save_episode.py`): build the episode document (the
upsert into Cosmos DB is the external store write). -/
def save_episode (certification_id audio_format : String)
    (episode_number : Nat) (skill_domain audio_url script_url : String)
    (duration_seconds : ℚ) (title : String) : EpisodeDoc :=
  { id := epId certification_id audio_format episode_number
    sequenceNumber := episode_number
    skillDomain := skill_domain
    title := title
    audioUrl := audio_url
    scriptUrl := script_url
    durationSeconds := duration_seconds }

/-- The per-part `domain_title` (lines 648-653): `episode_title` if given
(and truthy) on part 1, else the skill domain with a part suffix from part 2
on. -/
def psdTitle (skill_domain : String) (episode_title : Option String)
    (part_number : Nat) : String :=
  if part_number = 1 then
    match episode_title with
    | some t => if t = "" then skill_domain else t
    | none => skill_domain
  else skill_domain ++ " (Part " ++ toString part_number ++ ")"

/-- The `while part_number <= max_parts` loop of `process_skill_domain`
(lines 640-755), fuel = remaining allowed parts.  When the fuel runs out the
source falls off the loop and returns the documents accumulated so far; no
exception is raised at the bound.  `chunking` and `upload` may raise
(`Except.error`), which propagates out of the whole call as in Python. -/
def psdLoop (gen : GenRequest → String) (grow : Nat → Nat)
    (ssmlOf : String → String → Except String String)
    (chunking : String → String → Nat → Except String AudioResult)
    (upload : String → String → String → Nat → Except String UploadResult)
    (certification_id audio_format skill_domain : String)
    (episode_title : Option String) (base_min_words max_length_retries : Nat) :
    Nat → Nat → Nat → String → List EpisodeDoc → Except String (List EpisodeDoc)
  | 0, _, _, _, docs => .ok docs.reverse
  | parts_left + 1, part_number, ep, topics_covered, docs =>
    let domain_title := psdTitle skill_domain episode_title part_number
    let r := lengthRetryLoop gen grow ep part_number (decide (1 < part_number))
      topics_covered base_min_words max_length_retries
    let narration := r.1
    let has_more := r.2
    match ssmlOf narration audio_format with
    | .error e => .error e
    | .ok ssml =>
      match chunking narration ssml ep with
      | .error e => .error e
      | .ok audio =>
        match upload audio.audio_path narration ssml ep with
        | .error e => .error e
        | .ok up =>
          let doc := save_episode certification_id audio_format ep skill_domain
            up.audio_url up.script_url audio.duration_seconds domain_title
          if has_more then
            psdLoop gen grow ssmlOf chunking upload certification_id
              audio_format skill_domain episode_title base_min_words
              max_length_retries parts_left (part_number + 1) (ep + 1)
              (String.mk (narration.data.take 500) ++ "...") (doc :: docs)
          else .ok (doc :: docs).reverse

/-- `process_skill_domain` (lines 598-755): `max_parts = 5`,
`max_length_retries = 1`, starting at part 1 with empty context. -/
def process_skill_domain (gen : GenRequest → String) (grow : Nat → Nat)
    (ssmlOf : String → String → Except String String)
    (chunking : String → String → Nat → Except String AudioResult)
    (upload : String → String → String → Nat → Except String UploadResult)
    (episode_number : Nat)
    (skill_domain certification_id audio_format : String)
    (episode_title : Option String) (base_min_words : Nat) :
    Except String (List EpisodeDoc) :=
  psdLoop gen grow ssmlOf chunking upload certification_id audio_format
    skill_domain episode_title base_min_words 1 5 1 episode_number "" []

/-- A stub generation engine that always emits the continuation marker. -/
def stubGen : GenRequest → String :=
  fun _ => "More to come. " ++ CONTINUATION_MARKER

/-- A concrete stand-in for `int(min_words * 1.15)`. -/
def stubGrow (n : Nat) : Nat := n * 115 / 100

/-- A stub markup converter that always succeeds. -/
def stubSsml : String → String → Except String String :=
  fun _ _ => .ok "<speak/>"

/-- A stub synthesis step that always succeeds. -/
def stubChunking : String → String → Nat → Except String AudioResult :=
  fun _ _ ep => .ok ⟨"/tmp/audio/" ++ pad3 ep ++ ".mp3", 12, pad3 ep ++ ".mp3"⟩

/-- A stub blob upload that always succeeds. -/
def stubUpload : String → String → String → Nat → Except String UploadResult :=
  fun _ _ _ _ => .ok ⟨"https://blob/audio.mp3", "https://blob/script.txt"⟩

/-! ## Batch orchestrator (`main`, lines 1103-1224, and helpers)

The Cosmos point read is a parameter `read_item : id → partition_key →
Except String Unit`; content retrieval, synthesis and finalisation are
likewise parameters.  The three phases are sequential folds; phase 2 runs in
a thread pool in the source and its results are collected in completion
order, which is modelled as submission order (the claims only concern
counts, membership and exit codes, none of which depend on that order). -/

/-- `episode_exists` (lines 577-595): `True` iff the point read does not
raise; any exception at all yields `False`. -/
def episode_exists (read_item : String → String → Except String Unit)
    (certification_id audio_format : String) (episode_number : Nat) : Bool :=
  match read_item (epId certification_id audio_format episode_number)
      certification_id with
  | .ok _ => true
  | .error _ => false

/-- The dict returned by `prepare_episode` (fields relevant to the claims). -/
structure PreparedEpisode where
  episode_number : Nat
  skill_domain : String
  episode_title : String
  narration : String
  ssml : String
deriving Repr, DecidableEq

/-- `prepare_episode` (lines 824-910): one narration via the length-retry
loop (`is_continuation=False`, `part_number=1`, empty context), cleaned
without consulting `needs_continuation`, then converted to markup.  Exactly
one prepared episode per call; there is no part loop on this path. -/
def prepare_episode (gen : GenRequest → String) (grow : Nat → Nat)
    (ssmlOf : String → String → Except String String) (episode_number : Nat)
    (skill_domain episode_title audio_format : String) (base_min_words : Nat) :
    Except String PreparedEpisode :=
  let narration :=
    (lengthRetryLoop gen grow episode_number 1 false "" base_min_words 1).1
  match ssmlOf narration audio_format with
  | .error e => .error e
  | .ok ssml =>
    .ok ⟨episode_number, skill_domain, episode_title, narration, ssml⟩

/-- Episode title for a unit (lines 1117-1120). -/
def episodeTitleFor (unit : EpisodeUnit) : String :=
  if 1 < unit.total_parts then
    unit.domain ++ " (Part " ++ toString unit.part ++ ")"
  else unit.domain

/-- Phase 1 (lines 1114-1151): walk the batch units in order with
consecutive episode numbers; each unit is either skipped (exists and not
forced), prepared, or recorded as an error.  Returns
`(prepared, skipped, errors)` in processing order. -/
def phase1Loop (read_item : String → String → Except String Unit)
    (gen : GenRequest → String) (grow : Nat → Nat)
    (ssmlOf : String → String → Except String String)
    (certification_id audio_format : String) (force_regenerate : Bool)
    (base_min_words : Nat) :
    List EpisodeUnit → Nat →
      List PreparedEpisode × List (Nat × String) × List String
  | [], _ => ([], [], [])
  | unit :: rest, ep =>
    let title := episodeTitleFor unit
    let r := phase1Loop read_item gen grow ssmlOf certification_id
      audio_format force_regenerate base_min_words rest (ep + 1)
    if !force_regenerate
        && episode_exists read_item certification_id audio_format ep then
      (r.1, (ep, title) :: r.2.1, r.2.2)
    else
      match prepare_episode gen grow ssmlOf ep unit.domain title audio_format
          base_min_words with
      | .ok prep => (prep :: r.1, r.2.1, r.2.2)
      | .error e => (r.1, r.2.1,
          ("Error preparing '" ++ title ++ "' (episode " ++ toString ep
            ++ "): " ++ e) :: r.2.2)

/-- Phase 2 (lines 1153-1181): synthesize each prepared episode; failures
become errors. -/
def phase2 (synthEp : PreparedEpisode → Except String AudioResult) :
    List PreparedEpisode → List (PreparedEpisode × AudioResult) × List String
  | [] => ([], [])
  | ep :: rest =>
    let r := phase2 synthEp rest
    match synthEp ep with
    | .ok a => ((ep, a) :: r.1, r.2)
    | .error e => (r.1, ("Error synthesizing episode "
        ++ toString ep.episode_number ++ ": " ++ e) :: r.2)

/-- Phase 3 (lines 1183-1201): upload and save each synthesized episode;
failures become errors. -/
def phase3 (finalizeEp : PreparedEpisode → AudioResult →
      Except String EpisodeDoc) :
    List (PreparedEpisode × AudioResult) → List EpisodeDoc × List String
  | [] => ([], [])
  | pa :: rest =>
    let r := phase3 finalizeEp rest
    match finalizeEp pa.1 pa.2 with
    | .ok doc => (doc :: r.1, r.2)
    | .error e => (r.1, ("Error finalizing episode "
        ++ toString pa.1.episode_number ++ ": " ++ e) :: r.2)

/-- `finalize_episode` (lines 930-968): upload, then build the saved
document. -/
def finalize_episode
    (upload : String → String → String → Nat → Except String UploadResult)
    (certification_id audio_format : String) (prep : PreparedEpisode)
    (audio : AudioResult) : Except String EpisodeDoc :=
  match upload audio.audio_path prep.narration prep.ssml
      prep.episode_number with
  | .error e => .error e
  | .ok up => .ok (save_episode certification_id audio_format
      prep.episode_number prep.skill_domain up.audio_url up.script_url
      audio.duration_seconds prep.episode_title)

/-- Outcome of one `main` invocation. -/
structure BatchResult where
  generated : List EpisodeDoc
  skipped : List (Nat × String)
  errors : List String
  exitCode : Nat
deriving Repr, DecidableEq

/-- Exit-code policy of `main` (lines 1217-1224): `sys.exit(1)` if any
errors, `sys.exit(1)` if nothing was generated and nothing skipped,
otherwise fall off `main` with exit code 0. -/
def batchExitCode (generated skipped errors : Nat) : Nat :=
  if errors ≠ 0 then 1
  else if generated = 0 ∧ skipped = 0 then 1
  else 0

/-- `main` (lines 1103-1224) from the point where the batch slice is known:
empty batch returns early with exit code 0 (lines 1034-1037); otherwise the
three phases run and the exit code follows `batchExitCode`. -/
def runBatch (read_item : String → String → Except String Unit)
    (gen : GenRequest → String) (grow : Nat → Nat)
    (ssmlOf : String → String → Except String String)
    (synthEp : PreparedEpisode → Except String AudioResult)
    (finalizeEp : PreparedEpisode → AudioResult → Except String EpisodeDoc)
    (certification_id audio_format : String) (force_regenerate : Bool)
    (base_min_words : Nat) (skills : List Skill)
    (topics_per_episode batch_index batch_size : Nat) : BatchResult :=
  let units := batchUnits skills topics_per_episode batch_index batch_size
  if units.isEmpty then ⟨[], [], [], 0⟩
  else
    let p1 := phase1Loop read_item gen grow ssmlOf certification_id
      audio_format force_regenerate base_min_words units
      (baseEpisodeNumber batch_index batch_size)
    let p2 := phase2 synthEp p1.1
    let p3 := phase3 finalizeEp p2.1
    let errors := p1.2.2 ++ p2.2 ++ p3.2
    ⟨p3.1, p1.2.1, errors,
      batchExitCode p3.1.length p1.2.1.length errors.length⟩

/-! Concrete material for witness instantiations of the synthesis claims. -/

/-- A 500-word paragraph (`"a a ... a"`). -/
def wPara : String := ⟨(List.replicate 499 ('a' :: [' '])).flatten ++ ['a']⟩

/-- A second 500-word paragraph (`"q q ... q"`), distinct from `wPara`; the
letter `q` appears in no fixed tag the Markup Builder emits, so a synthesis
stub can single out this paragraph's segment. -/
def wParaB : String := ⟨(List.replicate 499 ('q' :: [' '])).flatten ++ ['q']⟩

/-- Three long paragraphs: 1500 words in total, forcing the chunked path
and a three-segment split at the 850-word bound. -/
def wParas : List String := [wPara, wParaB, wPara]

/-- A synthesis stub that always succeeds with a three-byte MP3. -/
def wSynth : String → Option AudioBytes := fun _ => some [1, 2, 3]

/-! Lemmas about words, stripping and joining. -/

theorem pySplitAux_append_sep (ys : List Char) :
    ∀ (xs buf : List Char),
      pySplitAux (xs ++ '\n' :: '\n' :: ys) buf
        = pySplitAux xs buf ++ pySplitAux ys [] := by
  intro xs
  induction xs with
  | nil =>
    intro buf
    by_cases h : buf.isEmpty <;> simp [pySplitAux, pyWS, h]
  | cons c cs ih =>
    intro buf
    by_cases hc : pyWS c
    · by_cases hb : buf.isEmpty <;> simp [pySplitAux, hc, hb, ih]
    · simp [pySplitAux, hc, ih]

theorem pySplitAux_joinParasCh :
    ∀ g : List (List Char),
      pySplitAux (joinParasCh g) [] = (g.map (fun p => pySplitAux p [])).flatten := by
  intro g
  induction g with
  | nil => simp [joinParasCh, pySplitAux]
  | cons p ps ih =>
    cases ps with
    | nil => simp [joinParasCh]
    | cons q qs => simp [joinParasCh, pySplitAux_append_sep, ih]

theorem wordCount_joinParas (g : List String) :
    wordCount (joinParas g) = (g.map wordCount).sum := by
  simp only [wordCount, pyWords, joinParas, pySplitAux_joinParasCh]
  simp only [List.length_flatten, List.map_map]
  rfl

theorem joinParasCh_ne_nil (p : List Char) (ps : List (List Char)) (hp : p ≠ []) :
    joinParasCh (p :: ps) ≠ [] := by
  cases ps <;> simp [joinParasCh, hp]

theorem joinParasCh_head? (p : List Char) (ps : List (List Char)) (hp : p ≠ []) :
    (joinParasCh (p :: ps)).head? = p.head? := by
  cases ps with
  | nil => simp [joinParasCh]
  | cons q qs =>
    cases p with
    | nil => exact absurd rfl hp
    | cons c cs => simp [joinParasCh]

theorem joinParasCh_getLast? :
    ∀ (p : List Char) (ps : List (List Char)), (∀ q ∈ p :: ps, q ≠ []) →
      (joinParasCh (p :: ps)).getLast? = ((p :: ps).getLast (by simp)).getLast? := by
  intro p ps
  induction ps generalizing p with
  | nil => intro _; simp [joinParasCh]
  | cons q qs ih =>
    intro h
    have hq : joinParasCh (q :: qs) ≠ [] :=
      joinParasCh_ne_nil q qs (h q (by simp))
    have : joinParasCh (p :: q :: qs) = (p ++ ['\n', '\n']) ++ joinParasCh (q :: qs) := by
      simp [joinParasCh]
    rw [this, List.getLast?_append_of_ne_nil _ hq, ih q (fun r hr => h r (by simp [hr]))]
    simp [List.getLast_cons]

theorem pyStripCh_head?_not (cs : List Char) (c : Char)
    (h : (pyStripCh cs).head? = some c) : ¬ pyWS c := by
  obtain ⟨t, ht⟩ := List.rdropWhile_prefix pyWS (cs.dropWhile pyWS)
  cases hx : pyStripCh cs with
  | nil => rw [hx] at h; simp at h
  | cons a l =>
    have hac : a = c := by rw [hx] at h; simpa using h
    subst hac
    unfold pyStripCh at hx
    rw [hx] at ht
    have hne : cs.dropWhile pyWS ≠ [] := by
      intro hnil
      rw [hnil] at ht
      simp at ht
    have hhead : (cs.dropWhile pyWS).head? = some a := by
      rw [← ht]
      simp
    have h2 := List.head_dropWhile_not pyWS cs hne
    rw [List.head?_eq_head hne, Option.some_inj] at hhead
    rw [hhead] at h2
    simp [h2]

theorem pyStripCh_getLast?_not (cs : List Char) (c : Char)
    (h : (pyStripCh cs).getLast? = some c) : ¬ pyWS c := by
  obtain ⟨hne, hc⟩ := List.mem_getLast?_eq_getLast (Option.mem_def.mpr h)
  rw [hc]
  exact List.rdropWhile_last_not pyWS (cs.dropWhile pyWS) hne

theorem pyStripCh_eq_self (cs : List Char)
    (h1 : ∀ c, cs.head? = some c → ¬ pyWS c)
    (h2 : ∀ c, cs.getLast? = some c → ¬ pyWS c) : pyStripCh cs = cs := by
  unfold pyStripCh
  have hd : cs.dropWhile pyWS = cs := by
    rw [List.dropWhile_eq_self_iff]
    intro hl
    apply h1
    cases cs with
    | nil => simp at hl
    | cons a l => simp
  rw [hd, List.rdropWhile_eq_self_iff]
  intro hl
  apply h2
  rw [List.getLast?_eq_getLast _ hl]

theorem cleanParagraphs_mem (rawParas : List String) (p : String)
    (hp : p ∈ cleanParagraphs rawParas) :
    p.data ≠ [] ∧ (∀ c, p.data.head? = some c → ¬ pyWS c) ∧
      (∀ c, p.data.getLast? = some c → ¬ pyWS c) := by
  simp only [cleanParagraphs, List.mem_filter, List.mem_map] at hp
  obtain ⟨⟨q, _, hq⟩, hne⟩ := hp
  subst hq
  refine ⟨?_, fun c h => pyStripCh_head?_not q.data c h,
    fun c h => pyStripCh_getLast?_not q.data c h⟩
  rw [bne_iff_ne] at hne
  intro hnil
  apply hne
  unfold pyStrip at hnil ⊢
  simp only [String.data] at hnil
  rw [hnil]

/-! Lemmas about the segment accumulation loop. -/

theorem chunkParasAux_flatten (bound : Nat) :
    ∀ (ps current : List String) (cw : Nat),
      (chunkParasAux bound ps current cw).flatten = current.reverse ++ ps := by
  intro ps
  induction ps with
  | nil =>
    intro current cw
    by_cases h : current.isEmpty <;> simp_all [chunkParasAux, List.isEmpty_iff]
  | cons p ps ih =>
    intro current cw
    by_cases h : current ≠ [] ∧ bound < cw + wordCount p <;>
      simp [chunkParasAux, h, ih]

theorem chunkParasAux_ne_nil (bound : Nat) :
    ∀ (ps current : List String) (cw : Nat),
      ∀ g ∈ chunkParasAux bound ps current cw, g ≠ [] := by
  intro ps
  induction ps with
  | nil =>
    intro current cw g hg
    by_cases h : current.isEmpty
    · simp [chunkParasAux, h] at hg
    · simp [chunkParasAux, h] at hg
      subst hg
      simp_all [List.isEmpty_iff]
  | cons p ps ih =>
    intro current cw g hg
    by_cases h : current ≠ [] ∧ bound < cw + wordCount p
    · simp only [chunkParasAux, if_pos h, List.mem_cons] at hg
      rcases hg with hg | hg
      · subst hg; simpa using h.1
      · exact ih _ _ g hg
    · simp only [chunkParasAux, if_neg h] at hg
      exact ih _ _ g hg

theorem chunkParasAux_mem_para (bound : Nat) :
    ∀ (ps current : List String) (cw : Nat),
      ∀ g ∈ chunkParasAux bound ps current cw, ∀ q ∈ g, q ∈ current ∨ q ∈ ps := by
  intro ps
  induction ps with
  | nil =>
    intro current cw g hg q hq
    by_cases h : current.isEmpty
    · simp [chunkParasAux, h] at hg
    · simp [chunkParasAux, h] at hg
      subst hg
      exact Or.inl (List.mem_reverse.mp hq)
  | cons p ps ih =>
    intro current cw g hg q hq
    by_cases h : current ≠ [] ∧ bound < cw + wordCount p
    · simp only [chunkParasAux, if_pos h, List.mem_cons] at hg
      rcases hg with hg | hg
      · subst hg
        exact Or.inl (List.mem_reverse.mp hq)
      · rcases ih _ _ g hg q hq with hh | hh
        · simp at hh
          subst hh
          exact Or.inr (by simp)
        · exact Or.inr (by simp [hh])
    · simp only [chunkParasAux, if_neg h] at hg
      rcases ih _ _ g hg q hq with hh | hh
      · rcases List.mem_cons.mp hh with hh1 | hh1
        · subst hh1; exact Or.inr (by simp)
        · exact Or.inl hh1
      · exact Or.inr (by simp [hh])

theorem chunkParasAux_wordBound (bound : Nat) :
    ∀ (ps current : List String) (cw : Nat),
      cw = (current.map wordCount).sum →
      (current ≠ [] → (current.map wordCount).sum ≤ bound ∨
        ∃ p, current = [p] ∧ bound < wordCount p) →
      ∀ g ∈ chunkParasAux bound ps current cw,
        (g.map wordCount).sum ≤ bound ∨ ∃ p, g = [p] ∧ bound < wordCount p := by
  intro ps
  induction ps with
  | nil =>
    intro current cw h1 h2 g hg
    by_cases h : current.isEmpty
    · simp [chunkParasAux, h] at hg
    · simp [chunkParasAux, h] at hg
      subst hg
      have hcur : current ≠ [] := by simpa [List.isEmpty_iff] using h
      rcases h2 hcur with hh | ⟨p, hp, hwp⟩
      · left
        simpa [List.map_reverse, List.sum_reverse] using hh
      · right
        exact ⟨p, by simp [hp], hwp⟩
  | cons p ps ih =>
    intro current cw h1 h2 g hg
    by_cases h : current ≠ [] ∧ bound < cw + wordCount p
    · simp only [chunkParasAux, if_pos h, List.mem_cons] at hg
      rcases hg with hg | hg
      · subst hg
        rcases h2 h.1 with hh | ⟨r, hr, hwr⟩
        · left
          simpa [List.map_reverse, List.sum_reverse] using hh
        · right
          exact ⟨r, by simp [hr], hwr⟩
      · refine ih _ _ (by simp) ?_ g hg
        intro _
        by_cases hb : wordCount p ≤ bound
        · left; simpa using hb
        · right; exact ⟨p, rfl, by omega⟩
    · simp only [chunkParasAux, if_neg h] at hg
      push_neg at h
      refine ih _ _ (by simp [h1]; ring) ?_ g hg
      intro _
      by_cases hcur : current = []
      · subst hcur
        simp only [List.map_nil, List.sum_nil] at h1
        subst h1
        by_cases hb : wordCount p ≤ bound
        · left; simpa using hb
        · right; exact ⟨p, rfl, by omega⟩
      · left
        have := h hcur
        simp only [List.map_cons, List.sum_cons]
        omega

theorem getLast_map_data :
    ∀ (ps : List String) (p : String),
      (p.data :: ps.map String.data).getLast (by simp)
        = ((p :: ps).getLast (by simp)).data := by
  intro ps
  induction ps with
  | nil => intro p; rfl
  | cons q qs ih =>
    intro p
    have h1 : (q.data :: qs.map String.data) ≠ [] := by simp
    have h2 : (q :: qs) ≠ [] := by simp
    rw [show (p.data :: (q :: qs).map String.data).getLast (by simp)
          = (q.data :: qs.map String.data).getLast h1 from List.getLast_cons h1,
        show (p :: q :: qs).getLast (by simp) = (q :: qs).getLast h2 from
          List.getLast_cons h2]
    exact ih q

theorem chunkParas_groups (rawParas : List String) (bound : Nat) :
    ∀ g ∈ chunkParas rawParas bound,
      g ≠ [] ∧ (∀ q ∈ g, q ∈ cleanParagraphs rawParas) ∧
        pyStrip (joinParas g) = joinParas g ∧
        wordCount (joinParas g) = (g.map wordCount).sum := by
  intro g hg
  have h1 := chunkParasAux_ne_nil bound (cleanParagraphs rawParas) [] 0 g hg
  have hmem : ∀ q ∈ g, q ∈ cleanParagraphs rawParas := by
    intro q hq
    rcases chunkParasAux_mem_para bound (cleanParagraphs rawParas) [] 0 g hg q hq with h | h
    · simp at h
    · exact h
  refine ⟨h1, hmem, ?_, wordCount_joinParas g⟩
  cases g with
  | nil => exact absurd rfl h1
  | cons p ps =>
    have hall : ∀ q ∈ p.data :: ps.map String.data, q ≠ [] := by
      intro q hq
      rcases List.mem_cons.mp hq with hq1 | hq1
      · subst hq1
        exact (cleanParagraphs_mem _ p (hmem p (by simp))).1
      · obtain ⟨r, hr, hrq⟩ := List.mem_map.mp hq1
        subst hrq
        exact (cleanParagraphs_mem _ r (hmem r (by simp [hr]))).1
    show pyStrip ⟨joinParasCh (p.data :: ps.map String.data)⟩ = _
    unfold pyStrip
    congr 1
    apply pyStripCh_eq_self
    · intro c hc
      simp only [String.data] at hc
      rw [joinParasCh_head? p.data (ps.map String.data) (hall p.data (by simp))] at hc
      exact (cleanParagraphs_mem _ p (hmem p (by simp))).2.1 c hc
    · intro c hc
      simp only [String.data] at hc
      rw [joinParasCh_getLast? p.data (ps.map String.data) hall] at hc
      rw [getLast_map_data ps p] at hc
      have hmm : (p :: ps).getLast (by simp) ∈ cleanParagraphs rawParas :=
        hmem _ (List.getLast_mem _)
      exact (cleanParagraphs_mem _ _ hmm).2.2 c hc

/-! ## XML machine lemmas -/

theorem xmlRunOpt_none (cs : List Char) : xmlRunOpt none cs = none := by
  induction cs with
  | nil => rfl
  | cons c cs ih => simpa [xmlRunOpt] using ih

theorem xmlRunOpt_append (a : Option XState) (xs ys : List Char) :
    xmlRunOpt a (xs ++ ys) = xmlRunOpt (xmlRunOpt a xs) ys := by
  simp [xmlRunOpt, List.foldl_append]

theorem xmlStep_content_safeChar {c : Char} (hval : xmlValidChar c = true)
    (hlt : c ≠ '<') (hamp : c ≠ '&') (x : List Char) (xs : List (List Char))
    (rd : Bool) :
    xmlStep ⟨.content, x :: xs, rd⟩ c = some ⟨.content, x :: xs, rd⟩ := by
  unfold xmlStep
  by_cases hs : xmlS c <;> simp [hs, hval, hlt, hamp]

theorem FoldsThrough_safeB {cs : List Char} (h : SafeB cs) : FoldsThrough cs := by
  induction h with
  | nil => intro x xs rd rest; rfl
  | chr hval hlt hamp htl ih =>
    rename_i c cs'
    intro x xs rd rest
    have h1 : xmlRunOpt (some ⟨XMode.content, x :: xs, rd⟩) ((c :: cs') ++ rest)
        = xmlRunOpt (xmlStep ⟨XMode.content, x :: xs, rd⟩ c) (cs' ++ rest) := rfl
    rw [h1, xmlStep_content_safeChar hval hlt hamp]
    exact ih x xs rd rest
  | amp _ ih => intro x xs rd rest; exact ih x xs rd rest
  | ltE _ ih => intro x xs rd rest; exact ih x xs rd rest
  | gtE _ ih => intro x xs rd rest; exact ih x xs rd rest
  | brk3 _ ih => intro x xs rd rest; exact ih x xs rd rest
  | brk5 _ ih => intro x xs rd rest; exact ih x xs rd rest
  | brk2 _ ih => intro x xs rd rest; exact ih x xs rd rest

theorem xmlRunOpt_attrVal_safe {v : List Char} (h : ∀ c ∈ v, attrSafeChar c = true) :
    ∀ (tag : List Char) (stk : List (List Char)) (rd : Bool) (rest : List Char),
      xmlRunOpt (some ⟨.attrVal tag '"', stk, rd⟩) (v ++ rest)
        = xmlRunOpt (some ⟨.attrVal tag '"', stk, rd⟩) rest := by
  induction v with
  | nil => intro tag stk rd rest; rfl
  | cons c v ih =>
    intro tag stk rd rest
    have hc := h c (by simp)
    have hv : ∀ d ∈ v, attrSafeChar d = true := fun d hd => h d (by simp [hd])
    simp only [attrSafeChar, Bool.and_eq_true, Bool.not_eq_true',
      beq_eq_false_iff_ne] at hc
    obtain ⟨⟨⟨⟨hval, hq1⟩, hq2⟩, hlt⟩, hamp⟩ := hc
    have hstep : xmlStep ⟨XMode.attrVal tag '"', stk, rd⟩ c
        = some ⟨XMode.attrVal tag '"', stk, rd⟩ := by
      unfold xmlStep
      simp [hq1, hq2, hlt, hamp, hval]
    have h1 : xmlRunOpt (some ⟨XMode.attrVal tag '"', stk, rd⟩) ((c :: v) ++ rest)
        = xmlRunOpt (xmlStep ⟨XMode.attrVal tag '"', stk, rd⟩ c) (v ++ rest) := rfl
    rw [h1, hstep]
    exact ih hv tag stk rd rest

theorem safeB_append {a b : List Char} (ha : SafeB a) (hb : SafeB b) :
    SafeB (a ++ b) := by
  induction ha with
  | nil => exact hb
  | chr hval hlt hamp _ ih => exact .chr hval hlt hamp ih
  | amp _ ih => exact .amp ih
  | ltE _ ih => exact .ltE ih
  | gtE _ ih => exact .gtE ih
  | brk3 _ ih => rw [List.append_assoc]; exact .brk3 ih
  | brk5 _ ih => rw [List.append_assoc]; exact .brk5 ih
  | brk2 _ ih => rw [List.append_assoc]; exact .brk2 ih

theorem safeB_tail_of_plain {c : Char} {cs : List Char} (h : SafeB (c :: cs))
    (h1 : c ≠ '&') (h2 : c ≠ '<') : SafeB cs := by
  cases h with
  | chr _ _ _ htl => exact htl
  | amp htl => exact absurd rfl h1
  | ltE htl => exact absurd rfl h1
  | gtE htl => exact absurd rfl h1
  | brk3 htl => exact absurd rfl h2
  | brk5 htl => exact absurd rfl h2
  | brk2 htl => exact absurd rfl h2

theorem safeB_escapeCh {cs : List Char} (h : ∀ c ∈ cs, xmlValidChar c = true) :
    SafeB (escapeCh cs) := by
  induction cs with
  | nil => exact .nil
  | cons c cs ih =>
    have hc := h c (by simp)
    have hcs := fun d hd => h d (List.mem_cons_of_mem _ hd)
    by_cases h1 : c = '&'
    · simp only [escapeCh, if_pos h1]
      exact .amp (ih hcs)
    · by_cases h2 : c = '<'
      · simp only [escapeCh, if_neg h1, if_pos h2]
        exact .ltE (ih hcs)
      · by_cases h3 : c = '>'
        · simp only [escapeCh, if_neg h1, if_neg h2, if_pos h3]
          exact .gtE (ih hcs)
        · simp only [escapeCh, if_neg h1, if_neg h2, if_neg h3]
          exact .chr hc h2 h1 (ih hcs)

theorem replacePause_cons_ne (c : Char) (cs : List Char)
    (h : ∀ rest, ¬ (c :: cs = '[' :: 'P' :: 'A' :: 'U' :: 'S' :: 'E' :: ']' :: rest)) :
    replacePause (c :: cs) = c :: replacePause cs := by
  rw [replacePause.eq_def]
  split
  · rename_i rest heq
    exact absurd heq (h rest)
  · rename_i heads heq
    injection heq with h1 h2
    rw [h1, h2]
  · rename_i heq
    cases heq

theorem replacePause_no_bracket {xs : List Char} (hx : ∀ c ∈ xs, c ≠ '[')
    (ys : List Char) : replacePause (xs ++ ys) = xs ++ replacePause ys := by
  induction xs with
  | nil => rfl
  | cons c xs ih =>
    have hc : c ≠ '[' := hx c (by simp)
    rw [List.cons_append, replacePause_cons_ne c (xs ++ ys)
      (fun rest hr => by injection hr with h1 h2; exact hc h1),
      ih (fun d hd => hx d (by simp [hd])), List.cons_append]

theorem safeB_replacePause_n : ∀ (n : Nat) (es : List Char), es.length ≤ n →
    SafeB es → SafeB (replacePause es) := by
  intro n
  induction n with
  | zero =>
    intro es hlen hs
    have hnil : es = [] := List.eq_nil_of_length_eq_zero (Nat.le_zero.mp hlen)
    subst hnil
    exact .nil
  | succ n ih =>
    intro es hlen hs
    by_cases hp : ∃ rest, es = '[' :: 'P' :: 'A' :: 'U' :: 'S' :: 'E' :: ']' :: rest
    · obtain ⟨rest, rfl⟩ := hp
      have h1 : SafeB rest := by
        have t1 := safeB_tail_of_plain hs (by decide) (by decide)
        have t2 := safeB_tail_of_plain t1 (by decide) (by decide)
        have t3 := safeB_tail_of_plain t2 (by decide) (by decide)
        have t4 := safeB_tail_of_plain t3 (by decide) (by decide)
        have t5 := safeB_tail_of_plain t4 (by decide) (by decide)
        have t6 := safeB_tail_of_plain t5 (by decide) (by decide)
        exact safeB_tail_of_plain t6 (by decide) (by decide)
      rw [replacePause]
      refine SafeB.brk5 (ih rest ?_ h1)
      simp at hlen
      omega
    · cases hs with
      | nil => exact .nil
      | chr hval hlt hamp htl =>
        rename_i c cs
        rw [replacePause_cons_ne c cs (fun r hr => hp ⟨r, hr⟩)]
        refine .chr hval hlt hamp (ih cs ?_ htl)
        simp at hlen
        omega
      | amp htl =>
        rename_i cs
        have hnb := @replacePause_no_bracket ['&', 'a', 'm', 'p', ';']
          (by decide) cs
        simp only [List.cons_append, List.nil_append] at hnb
        rw [hnb]
        refine .amp (ih cs ?_ htl)
        simp at hlen
        omega
      | ltE htl =>
        rename_i cs
        have hnb := @replacePause_no_bracket ['&', 'l', 't', ';']
          (by decide) cs
        simp only [List.cons_append, List.nil_append] at hnb
        rw [hnb]
        refine .ltE (ih cs ?_ htl)
        simp at hlen
        omega
      | gtE htl =>
        rename_i cs
        have hnb := @replacePause_no_bracket ['&', 'g', 't', ';']
          (by decide) cs
        simp only [List.cons_append, List.nil_append] at hnb
        rw [hnb]
        refine .gtE (ih cs ?_ htl)
        simp at hlen
        omega
      | brk3 htl =>
        rename_i cs
        rw [@replacePause_no_bracket br300 (by decide) cs]
        refine .brk3 (ih cs ?_ htl)
        have h21 : br300.length = 21 := rfl
        rw [List.length_append, h21] at hlen
        omega
      | brk5 htl =>
        rename_i cs
        rw [@replacePause_no_bracket br500 (by decide) cs]
        refine .brk5 (ih cs ?_ htl)
        have h21 : br500.length = 21 := rfl
        rw [List.length_append, h21] at hlen
        omega
      | brk2 htl =>
        rename_i cs
        rw [@replacePause_no_bracket br200 (by decide) cs]
        refine .brk2 (ih cs ?_ htl)
        have h21 : br200.length = 21 := rfl
        rw [List.length_append, h21] at hlen
        omega

theorem safeB_replacePause {es : List Char} (h : SafeB es) :
    SafeB (replacePause es) :=
  safeB_replacePause_n es.length es le_rfl h

theorem safeB_dropWhile_pyWS {cs : List Char} (h : SafeB cs) :
    SafeB (cs.dropWhile pyWS) := by
  induction h with
  | nil => exact .nil
  | chr hval hlt hamp htl ih =>
    rename_i c cs'
    rw [List.dropWhile_cons]
    by_cases hw : pyWS c
    · simpa [hw] using ih
    · simpa [hw] using SafeB.chr hval hlt hamp htl
  | amp htl ih =>
    rw [List.dropWhile_cons, if_neg (by decide)]
    exact .amp htl
  | ltE htl ih =>
    rw [List.dropWhile_cons, if_neg (by decide)]
    exact .ltE htl
  | gtE htl ih =>
    rw [List.dropWhile_cons, if_neg (by decide)]
    exact .gtE htl
  | brk3 htl ih =>
    rename_i cs'
    have he : br300 ++ cs' = '<' :: (br300.tail ++ cs') := rfl
    rw [he, List.dropWhile_cons, if_neg (by decide), ← he]
    exact .brk3 htl
  | brk5 htl ih =>
    rename_i cs'
    have he : br500 ++ cs' = '<' :: (br500.tail ++ cs') := rfl
    rw [he, List.dropWhile_cons, if_neg (by decide), ← he]
    exact .brk5 htl
  | brk2 htl ih =>
    rename_i cs'
    have he : br200 ++ cs' = '<' :: (br200.tail ++ cs') := rfl
    rw [he, List.dropWhile_cons, if_neg (by decide), ← he]
    exact .brk2 htl

theorem safeB_of_concat_ws : ∀ {l : List Char}, SafeB l →
    ∀ (xs : List Char) (w : Char), pyWS w = true → l = xs ++ [w] → SafeB xs := by
  intro l h
  induction h with
  | nil =>
    intro xs w _ he
    simp at he
  | chr hval hlt hamp htl ih =>
    rename_i c cs'
    intro xs w hw he
    cases xs with
    | nil =>
      exact .nil
    | cons y ys =>
      rw [List.cons_append] at he
      injection he with h1 h2
      subst h1
      exact .chr hval hlt hamp (ih ys w hw h2)
  | amp htl ih =>
    rename_i cs'
    intro xs w hw he
    rcases List.eq_nil_or_concat cs' with rfl | ⟨cs'', w', rfl⟩
    · have hlast : (xs ++ [w]).getLast? = some ';' := by rw [← he]; rfl
      rw [List.getLast?_concat] at hlast
      injection hlast with hlast
      rw [hlast] at hw
      exact absurd hw (by decide)
    · have he2 : ('&' :: 'a' :: 'm' :: 'p' :: ';' :: cs'') ++ [w'] = xs ++ [w] := by
        simpa using he
      obtain ⟨h1, h2⟩ := List.append_inj' he2 rfl
      injection h2 with h2
      subst h1
      exact .amp (ih cs'' w' (h2 ▸ hw) (List.concat_eq_append _ _))
  | ltE htl ih =>
    rename_i cs'
    intro xs w hw he
    rcases List.eq_nil_or_concat cs' with rfl | ⟨cs'', w', rfl⟩
    · have hlast : (xs ++ [w]).getLast? = some ';' := by rw [← he]; rfl
      rw [List.getLast?_concat] at hlast
      injection hlast with hlast
      rw [hlast] at hw
      exact absurd hw (by decide)
    · have he2 : ('&' :: 'l' :: 't' :: ';' :: cs'') ++ [w'] = xs ++ [w] := by
        simpa using he
      obtain ⟨h1, h2⟩ := List.append_inj' he2 rfl
      injection h2 with h2
      subst h1
      exact .ltE (ih cs'' w' (h2 ▸ hw) (List.concat_eq_append _ _))
  | gtE htl ih =>
    rename_i cs'
    intro xs w hw he
    rcases List.eq_nil_or_concat cs' with rfl | ⟨cs'', w', rfl⟩
    · have hlast : (xs ++ [w]).getLast? = some ';' := by rw [← he]; rfl
      rw [List.getLast?_concat] at hlast
      injection hlast with hlast
      rw [hlast] at hw
      exact absurd hw (by decide)
    · have he2 : ('&' :: 'g' :: 't' :: ';' :: cs'') ++ [w'] = xs ++ [w] := by
        simpa using he
      obtain ⟨h1, h2⟩ := List.append_inj' he2 rfl
      injection h2 with h2
      subst h1
      exact .gtE (ih cs'' w' (h2 ▸ hw) (List.concat_eq_append _ _))
  | brk3 htl ih =>
    rename_i cs'
    intro xs w hw he
    rcases List.eq_nil_or_concat cs' with rfl | ⟨cs'', w', rfl⟩
    · have hlast : (xs ++ [w]).getLast? = some '>' := by rw [← he]; rfl
      rw [List.getLast?_concat] at hlast
      injection hlast with hlast
      rw [hlast] at hw
      exact absurd hw (by decide)
    · have he2 : (br300 ++ cs'') ++ [w'] = xs ++ [w] := by
        rw [← he]
        simp [List.append_assoc]
      obtain ⟨h1, h2⟩ := List.append_inj' he2 rfl
      injection h2 with h2
      subst h1
      exact .brk3 (ih cs'' w' (h2 ▸ hw) (List.concat_eq_append _ _))
  | brk5 htl ih =>
    rename_i cs'
    intro xs w hw he
    rcases List.eq_nil_or_concat cs' with rfl | ⟨cs'', w', rfl⟩
    · have hlast : (xs ++ [w]).getLast? = some '>' := by rw [← he]; rfl
      rw [List.getLast?_concat] at hlast
      injection hlast with hlast
      rw [hlast] at hw
      exact absurd hw (by decide)
    · have he2 : (br500 ++ cs'') ++ [w'] = xs ++ [w] := by
        rw [← he]
        simp [List.append_assoc]
      obtain ⟨h1, h2⟩ := List.append_inj' he2 rfl
      injection h2 with h2
      subst h1
      exact .brk5 (ih cs'' w' (h2 ▸ hw) (List.concat_eq_append _ _))
  | brk2 htl ih =>
    rename_i cs'
    intro xs w hw he
    rcases List.eq_nil_or_concat cs' with rfl | ⟨cs'', w', rfl⟩
    · have hlast : (xs ++ [w]).getLast? = some '>' := by rw [← he]; rfl
      rw [List.getLast?_concat] at hlast
      injection hlast with hlast
      rw [hlast] at hw
      exact absurd hw (by decide)
    · have he2 : (br200 ++ cs'') ++ [w'] = xs ++ [w] := by
        rw [← he]
        simp [List.append_assoc]
      obtain ⟨h1, h2⟩ := List.append_inj' he2 rfl
      injection h2 with h2
      subst h1
      exact .brk2 (ih cs'' w' (h2 ▸ hw) (List.concat_eq_append _ _))

theorem safeB_rdropWhile_pyWS : ∀ (n : Nat) (l : List Char), l.length ≤ n →
    SafeB l → SafeB (l.rdropWhile pyWS) := by
  intro n
  induction n with
  | zero =>
    intro l hl hs
    have hnil : l = [] := List.eq_nil_of_length_eq_zero (Nat.le_zero.mp hl)
    subst hnil
    simpa using SafeB.nil
  | succ n ih =>
    intro l hl hs
    rcases List.eq_nil_or_concat l with rfl | ⟨l', w, rfl⟩
    · simpa using SafeB.nil
    · rw [List.concat_eq_append] at hl hs ⊢
      by_cases hw : pyWS w
      · rw [List.rdropWhile_concat_pos pyWS l' w hw]
        refine ih l' ?_ (safeB_of_concat_ws hs l' w hw rfl)
        rw [List.length_append] at hl
        simp at hl
        omega
      · rw [List.rdropWhile_concat_neg pyWS l' w (by simp [hw])]
        exact hs

theorem safeB_pyStripCh {cs : List Char} (h : SafeB cs) : SafeB (pyStripCh cs) :=
  safeB_rdropWhile_pyWS _ _ le_rfl (safeB_dropWhile_pyWS h)

theorem removeHost_cons_ne (c : Char) (cs : List Char)
    (h : ∀ rest, ¬ (c :: cs = '[' :: 'H' :: 'O' :: 'S' :: 'T' :: ']' :: rest)) :
    removeHost (c :: cs) = c :: removeHost cs := by
  rw [removeHost.eq_def]
  split
  · rename_i rest heq
    exact absurd heq (h rest)
  · rename_i heads heq
    injection heq with h1 h2
    rw [h1, h2]
  · rename_i heq
    cases heq

theorem removeExpert_cons_ne (c : Char) (cs : List Char)
    (h : ∀ rest, ¬ (c :: cs = '[' :: 'E' :: 'X' :: 'P' :: 'E' :: 'R' :: 'T' :: ']' :: rest)) :
    removeExpert (c :: cs) = c :: removeExpert cs := by
  rw [removeExpert.eq_def]
  split
  · rename_i rest heq
    exact absurd heq (h rest)
  · rename_i heads heq
    injection heq with h1 h2
    rw [h1, h2]
  · rename_i heq
    cases heq

theorem removeHost_subset : ∀ (n : Nat) (cs : List Char), cs.length ≤ n →
    ∀ c ∈ removeHost cs, c ∈ cs := by
  intro n
  induction n with
  | zero =>
    intro cs hlen c hc
    have hnil : cs = [] := List.eq_nil_of_length_eq_zero (Nat.le_zero.mp hlen)
    subst hnil
    simp [removeHost] at hc
  | succ n ih =>
    intro cs hlen c hc
    by_cases hp : ∃ rest, cs = '[' :: 'H' :: 'O' :: 'S' :: 'T' :: ']' :: rest
    · obtain ⟨rest, rfl⟩ := hp
      rw [removeHost] at hc
      have := ih rest (by simp at hlen; omega) c hc
      simp [this]
    · cases cs with
      | nil => simp [removeHost] at hc
      | cons c' cs' =>
        rw [removeHost_cons_ne c' cs' (fun r hr => hp ⟨r, hr⟩)] at hc
        rcases List.mem_cons.mp hc with rfl | hc
        · simp
        · have := ih cs' (by simp at hlen; omega) c hc
          simp [this]

theorem removeExpert_subset : ∀ (n : Nat) (cs : List Char), cs.length ≤ n →
    ∀ c ∈ removeExpert cs, c ∈ cs := by
  intro n
  induction n with
  | zero =>
    intro cs hlen c hc
    have hnil : cs = [] := List.eq_nil_of_length_eq_zero (Nat.le_zero.mp hlen)
    subst hnil
    simp [removeExpert] at hc
  | succ n ih =>
    intro cs hlen c hc
    by_cases hp : ∃ rest, cs = '[' :: 'E' :: 'X' :: 'P' :: 'E' :: 'R' :: 'T' :: ']' :: rest
    · obtain ⟨rest, rfl⟩ := hp
      rw [removeExpert] at hc
      have := ih rest (by simp at hlen; omega) c hc
      simp [this]
    · cases cs with
      | nil => simp [removeExpert] at hc
      | cons c' cs' =>
        rw [removeExpert_cons_ne c' cs' (fun r hr => hp ⟨r, hr⟩)] at hc
        rcases List.mem_cons.mp hc with rfl | hc
        · simp
        · have := ih cs' (by simp at hlen; omega) c hc
          simp [this]

theorem splitLinesAux_all (P : Char → Prop) :
    ∀ (cs buf : List Char), (∀ c ∈ cs, P c) → (∀ c ∈ buf, P c) →
      ∀ l ∈ splitLinesAux cs buf, ∀ c ∈ l, P c := by
  intro cs buf
  induction cs, buf using splitLinesAux.induct with
  | case1 buf hb =>
    intro _ hbuf l hl c hc
    simp only [splitLinesAux, if_pos hb] at hl
    simp at hl
  | case2 buf hb =>
    intro _ hbuf l hl c hc
    simp only [splitLinesAux, if_neg hb] at hl
    simp at hl
    subst hl
    exact hbuf c (List.mem_reverse.mp hc)
  | case3 cs buf ih =>
    intro hcs hbuf l hl c hc
    rw [splitLinesAux] at hl
    rcases List.mem_cons.mp hl with rfl | hl
    · exact hbuf c (List.mem_reverse.mp hc)
    · exact ih (fun d hd => hcs d (by simp [hd])) (by simp) l hl c hc
  | case4 cs buf ih =>
    intro hcs hbuf l hl c hc
    rw [splitLinesAux] at hl
    rcases List.mem_cons.mp hl with rfl | hl
    · exact hbuf c (List.mem_reverse.mp hc)
    · exact ih (fun d hd => hcs d (by simp [hd])) (by simp) l hl c hc
  | case5 cs buf hno ih =>
    intro hcs hbuf l hl c hc
    rw [splitLinesAux] at hl
    · rcases List.mem_cons.mp hl with rfl | hl
      · exact hbuf c (List.mem_reverse.mp hc)
      · exact ih (fun d hd => hcs d (by simp [hd])) (by simp) l hl c hc
    · exact hno
  | case6 c1 cs buf hno1 hno2 hno3 ih =>
    intro hcs hbuf l hl c hc
    rw [splitLinesAux] at hl
    · have := ih (fun d hd => hcs d (by simp [hd]))
        (fun d hd => by
          rcases List.mem_cons.mp hd with rfl | hd
          · exact hcs d (by simp)
          · exact hbuf d hd) l hl c hc
      exact this
    · exact hno1
    · exact hno2
    · exact hno3

theorem tokenizeHE_chr_subset :
    ∀ (cs : List Char), ∀ c, HEItem.chr c ∈ tokenizeHE cs → c ∈ cs := by
  intro cs
  induction cs using tokenizeHE.induct with
  | case1 cs ih =>
    intro c hc
    rw [tokenizeHE] at hc
    rcases List.mem_cons.mp hc with h | h
    · cases h
    · simp [ih c h]
  | case2 cs ih =>
    intro c hc
    rw [tokenizeHE] at hc
    · rcases List.mem_cons.mp hc with h | h
      · cases h
      · simp [ih c h]
  | case3 c1 cs hno1 hno2 ih =>
    intro c hc
    rw [tokenizeHE] at hc
    · rcases List.mem_cons.mp hc with h | h
      · injection h with h
        simp [h]
      · simp [ih c h]
    · exact hno1
    · exact hno2
  | case4 =>
    intro c hc
    simp [tokenizeHE] at hc

theorem collectHE_subset :
    ∀ (items : List HEItem) (role : Bool) (buf : List Char),
      ∀ rc ∈ collectHE items role buf, ∀ c ∈ rc.2,
        HEItem.chr c ∈ items ∨ c ∈ buf := by
  intro items
  induction items with
  | nil =>
    intro role buf rc hrc c hc
    simp only [collectHE] at hrc
    by_cases hb : (pyStripCh buf.reverse).isEmpty <;> simp [hb] at hrc
    subst hrc
    exact Or.inr (List.mem_reverse.mp hc)
  | cons it items ih =>
    intro role buf rc hrc c hc
    cases it with
    | host =>
      simp only [collectHE] at hrc
      rcases List.mem_append.mp hrc with h | h
      · by_cases hb : (pyStripCh buf.reverse).isEmpty <;> simp [hb] at h
        subst h
        exact Or.inr (List.mem_reverse.mp hc)
      · rcases ih true [] rc h c hc with h1 | h1
        · exact Or.inl (by simp [h1])
        · simp at h1
    | expert =>
      simp only [collectHE] at hrc
      rcases List.mem_append.mp hrc with h | h
      · by_cases hb : (pyStripCh buf.reverse).isEmpty <;> simp [hb] at h
        subst h
        exact Or.inr (List.mem_reverse.mp hc)
      · rcases ih false [] rc h c hc with h1 | h1
        · exact Or.inl (by simp [h1])
        · simp at h1
    | chr c1 =>
      simp only [collectHE] at hrc
      rcases ih role (c1 :: buf) rc hrc c hc with h1 | h1
      · exact Or.inl (by simp [h1])
      · rcases List.mem_cons.mp h1 with rfl | h1
        · exact Or.inl (by simp)
        · exact Or.inr h1

theorem safeB_joinSpace : ∀ (parts : List (List Char)),
    (∀ p ∈ parts, SafeB p) → SafeB (joinSpace parts) := by
  intro parts
  induction parts with
  | nil => intro _; exact .nil
  | cons p ps ih =>
    intro h
    cases ps with
    | nil => simpa [joinSpace] using h p (by simp)
    | cons q qs =>
      rw [joinSpace]
      exact safeB_append (h p (by simp))
        (.chr (by decide) (by decide) (by decide)
          (ih (fun r hr => h r (by simp [hr]))))

theorem safeB_normalizeTextCh {text : List Char}
    (h : ∀ c ∈ text, xmlValidChar c = true) : SafeB (normalizeTextCh text) := by
  unfold normalizeTextCh
  apply safeB_pyStripCh
  apply safeB_joinSpace
  intro p hp
  simp only [List.mem_flatMap, List.mem_map] at hp
  obtain ⟨ln, ⟨l0, hl0, rfl⟩, hpart⟩ := hp
  by_cases hb : (pyStripCh (l0.rdropWhile pyWS)).isEmpty
  · simp [hb] at hpart
    subst hpart
    simpa using SafeB.brk3 SafeB.nil
  · simp [hb] at hpart
    rcases hpart with rfl | rfl
    · apply safeB_replacePause
      apply safeB_escapeCh
      intro c hc
      have h1 : c ∈ l0 :=
        (List.rdropWhile_prefix pyWS l0).subset hc
      have h2 := splitLinesAux_all (fun d => d ∈ removeExpert (removeHost text))
        (removeExpert (removeHost text)) [] (fun d hd => hd) (by simp) l0 hl0 c h1
      exact h c (removeHost_subset text.length text le_rfl c
        (removeExpert_subset (removeHost text).length (removeHost text) le_rfl c h2))
    · simpa using SafeB.brk2 SafeB.nil

theorem xmlRunOpt_voiceOpen {v : String} (h : ∀ c ∈ v.data, attrSafeChar c = true)
    (x : List Char) (xs : List (List Char)) (rd : Bool) (rest : List Char) :
    xmlRunOpt (some ⟨.content, x :: xs, rd⟩) (voiceOpen v ++ rest)
      = xmlRunOpt (some ⟨.content, "eciov".data :: x :: xs, rd⟩) rest := by
  have h1 : voiceOpen v ++ rest
      = "<voice name=\"".data ++ (v.data ++ ('"' :: '>' :: rest)) := by
    simp [voiceOpen, List.append_assoc]
  rw [h1]
  rw [show xmlRunOpt (some ⟨XMode.content, x :: xs, rd⟩)
        ("<voice name=\"".data ++ (v.data ++ ('"' :: '>' :: rest)))
      = xmlRunOpt (some ⟨XMode.attrVal "eciov".data '"', x :: xs, rd⟩)
        (v.data ++ ('"' :: '>' :: rest)) from rfl]
  rw [xmlRunOpt_attrVal_safe h]
  rfl

theorem foldsThrough_voiceBlock {v : String}
    (hv : ∀ c ∈ v.data, attrSafeChar c = true)
    {inner : List Char} (hinner : SafeB inner) :
    FoldsThrough (voiceOpen v ++ prosodyOpen ++ inner ++ prosodyClose ++ voiceClose) := by
  intro x xs rd rest
  have h1 : (voiceOpen v ++ prosodyOpen ++ inner ++ prosodyClose ++ voiceClose) ++ rest
      = voiceOpen v ++ (prosodyOpen ++ (inner ++ (prosodyClose ++ (voiceClose ++ rest)))) := by
    simp [List.append_assoc]
  rw [h1, xmlRunOpt_voiceOpen hv]
  rw [show xmlRunOpt (some ⟨XMode.content, "eciov".data :: x :: xs, rd⟩)
        (prosodyOpen ++ (inner ++ (prosodyClose ++ (voiceClose ++ rest))))
      = xmlRunOpt
          (some ⟨XMode.content, "ydosorp".data :: "eciov".data :: x :: xs, rd⟩)
          (inner ++ (prosodyClose ++ (voiceClose ++ rest))) from rfl]
  rw [FoldsThrough_safeB hinner]
  rfl

theorem foldsThrough_joinSpace {chunks : List (List Char)}
    (h : ∀ ch ∈ chunks, FoldsThrough ch) : FoldsThrough (joinSpace chunks) := by
  induction chunks with
  | nil => intro x xs rd rest; rfl
  | cons p ps ih =>
    cases ps with
    | nil =>
      intro x xs rd rest
      rw [joinSpace]
      exact h p (by simp) x xs rd rest
    | cons q qs =>
      intro x xs rd rest
      rw [joinSpace]
      have h1 : (p ++ ' ' :: joinSpace (q :: qs)) ++ rest
          = p ++ (' ' :: (joinSpace (q :: qs) ++ rest)) := by simp
      rw [h1, h p (by simp)]
      rw [show xmlRunOpt (some ⟨XMode.content, x :: xs, rd⟩)
            (' ' :: (joinSpace (q :: qs) ++ rest))
          = xmlRunOpt (some ⟨XMode.content, x :: xs, rd⟩)
            (joinSpace (q :: qs) ++ rest) from rfl]
      exact ih (fun ch hch => h ch (by simp [hch])) x xs rd rest

theorem foldsThrough_podcastChunk (hv ev : String)
    (hh : ∀ c ∈ hv.data, attrSafeChar c = true)
    (he : ∀ c ∈ ev.data, attrSafeChar c = true)
    (rc : Bool × List Char) (hsafe : SafeB (normalizeTextCh rc.2)) :
    FoldsThrough (podcastChunk hv ev rc) := by
  unfold podcastChunk
  by_cases hr : rc.1 <;> simp only [hr, if_pos, if_neg, Bool.false_eq_true,
    if_true, if_false]
  · exact foldsThrough_voiceBlock hh hsafe
  · exact foldsThrough_voiceBlock he hsafe

theorem xmlOk_speak_wrap {body : List Char}
    (hbody : ∀ rest,
      xmlRunOpt (some ⟨.content, ["kaeps".data], false⟩) (body ++ rest)
        = xmlRunOpt (some ⟨.content, ["kaeps".data], false⟩) rest) :
    xmlOk ⟨speakOpen ++ (body ++ speakClose)⟩ = true := by
  unfold xmlOk
  rw [show (⟨speakOpen ++ (body ++ speakClose)⟩ : String).data
      = speakOpen ++ (body ++ speakClose) from rfl]
  rw [show ∀ z, xmlRunOpt (some xmlInit) (speakOpen ++ z)
      = xmlRunOpt (some ⟨XMode.content, ["kaeps".data], false⟩) z from fun z => rfl]
  rw [hbody speakClose]
  rfl

/-! ## Claim theorems: C4 -/

/-- For any narration of XML-valid characters (and attribute-safe voices),
the Markup Builder succeeds and its output is accepted by the XML machine. -/
theorem build_ssml_ok_of_valid (narration fmt iv hv ev : String)
    (hiv : ∀ c ∈ iv.data, attrSafeChar c = true)
    (hhv : ∀ c ∈ hv.data, attrSafeChar c = true)
    (hev : ∀ c ∈ ev.data, attrSafeChar c = true)
    (hn : ∀ c ∈ narration.data, xmlValidChar c = true) :
    ∃ s, build_ssml_from_narration narration fmt iv hv ev = .ok s ∧
      xmlOk s = true := by
  simp only [build_ssml_from_narration]
  by_cases hf : fmt = "podcast"
  · rw [if_pos hf]
    set chunks := (collectHE (tokenizeHE narration.data) true []).map
      (podcastChunk hv ev) with hchunks
    have hall : ∀ ch ∈ chunks, FoldsThrough ch := by
      intro ch hch
      rw [hchunks] at hch
      obtain ⟨rc, hrc, rfl⟩ := List.mem_map.mp hch
      apply foldsThrough_podcastChunk hv ev hhv hev
      apply safeB_normalizeTextCh
      intro c hc
      have h1 := collectHE_subset (tokenizeHE narration.data) true [] rc hrc c hc
      rcases h1 with h1 | h1
      · exact hn c (tokenizeHE_chr_subset narration.data c h1)
      · simp at h1
    have hok : xmlOk ⟨speakOpen ++ (joinSpace chunks ++ speakClose)⟩ = true :=
      xmlOk_speak_wrap (fun rest =>
        foldsThrough_joinSpace hall "kaeps".data [] false rest)
    refine ⟨⟨speakOpen ++ joinSpace chunks ++ speakClose⟩, ?_, ?_⟩
    · simp [hok]
    · exact hok
  · rw [if_neg hf]
    have hinner : SafeB (normalizeTextCh narration.data) :=
      safeB_normalizeTextCh hn
    have hb := foldsThrough_voiceBlock hiv hinner
    have hok : xmlOk ⟨speakOpen ++ ((voiceOpen iv ++ prosodyOpen ++
        normalizeTextCh narration.data ++ prosodyClose ++ voiceClose) ++
        speakClose)⟩ = true :=
      xmlOk_speak_wrap (fun rest => hb "kaeps".data [] false rest)
    have hok2 : xmlOk ⟨speakOpen ++ (voiceOpen iv ++ (prosodyOpen ++
        (normalizeTextCh narration.data ++ (prosodyClose ++ (voiceClose ++
        speakClose)))))⟩ = true := by
      have hflat : (⟨speakOpen ++ ((voiceOpen iv ++ prosodyOpen ++
          normalizeTextCh narration.data ++ prosodyClose ++ voiceClose) ++
          speakClose)⟩ : String)
          = ⟨speakOpen ++ (voiceOpen iv ++ (prosodyOpen ++
            (normalizeTextCh narration.data ++ (prosodyClose ++ (voiceClose ++
            speakClose)))))⟩ := by
        apply congrArg String.mk
        simp [List.append_assoc]
      rw [← hflat]
      exact hok
    refine ⟨⟨speakOpen ++ voiceOpen iv ++ prosodyOpen ++
      normalizeTextCh narration.data ++ prosodyClose ++ voiceClose ++
      speakClose⟩, ?_, ?_⟩
    · simp [hok2]
    · have hflat2 : (⟨speakOpen ++ voiceOpen iv ++ prosodyOpen ++
          normalizeTextCh narration.data ++ prosodyClose ++ voiceClose ++
          speakClose⟩ : String)
          = ⟨speakOpen ++ (voiceOpen iv ++ (prosodyOpen ++
            (normalizeTextCh narration.data ++ (prosodyClose ++ (voiceClose ++
            speakClose)))))⟩ := by
        apply congrArg String.mk
        simp [List.append_assoc]
      rw [hflat2]
      exact hok2

/-- C4 (amended): the Markup Builder escapes each line before substituting
`[PAUSE]` and validates its output by parsing before returning, so every
returned string is well-formed; and for every narration consisting of
XML-valid characters (with attribute-safe voice names, as all configured
voices are) the builder returns successfully with well-formed markup.  The
original claim's stronger "no plain-text narration makes the builder raise"
is refuted by `build_ssml_from_narration_nul_raises`: narration containing an
XML-forbidden control character makes the validation raise. -/
theorem build_ssml_from_narration_wellFormed
    (narration fmt iv hv ev : String)
    (hiv : ∀ c ∈ iv.data, attrSafeChar c = true)
    (hhv : ∀ c ∈ hv.data, attrSafeChar c = true)
    (hev : ∀ c ∈ ev.data, attrSafeChar c = true) :
    (∀ s, build_ssml_from_narration narration fmt iv hv ev = .ok s →
      xmlOk s = true) ∧
    ((∀ c ∈ narration.data, xmlValidChar c = true) →
      ∃ s, build_ssml_from_narration narration fmt iv hv ev = .ok s ∧
        xmlOk s = true) := by
  constructor
  · intro s hs
    simp only [build_ssml_from_narration] at hs
    split_ifs at hs with h1 h2 h3 <;>
      first
        | (simp only [Except.ok.injEq] at hs; subst hs; assumption)
        | cases hs
  · exact build_ssml_ok_of_valid narration fmt iv hv ev hiv hhv hev

/-- Witness for C4: a narration exercising blank lines, an ampersand and a
`[PAUSE]` directive, with the default voices, builds successfully into
well-formed markup. -/
theorem build_ssml_from_narration_wellFormed_witness :
    (∀ c ∈ ("Agents & tools.\n\n[PAUSE] Done.").data, xmlValidChar c = true) ∧
    (∃ s, build_ssml_from_narration "Agents & tools.\n\n[PAUSE] Done."
        "instructional" "en-US-AndrewNeural" "en-US-GuyNeural" "en-US-TonyNeural"
        = .ok s ∧ xmlOk s = true) :=
  ⟨by decide,
    (build_ssml_from_narration_wellFormed "Agents & tools.\n\n[PAUSE] Done."
      "instructional" "en-US-AndrewNeural" "en-US-GuyNeural" "en-US-TonyNeural"
      (by decide) (by decide) (by decide)).2 (by decide)⟩

set_option maxRecDepth 10000 in
/-- C4 counterexample: narration consisting of the control character `U+0000`
(legal in a Python `str`, forbidden in XML) survives escaping untouched, so
the final `ET.fromstring` validation fails and the builder raises — refuting
the claim that no plain-text narration makes the builder raise. -/
theorem build_ssml_from_narration_nul_raises :
    build_ssml_from_narration "\x00" "instructional" "en-US-AndrewNeural"
      "en-US-GuyNeural" "en-US-TonyNeural" = .error "SSML parse error" := by
  rfl

/-! ## Claim theorems: C5 -/

theorem subVoicesAux_log_allowed (allowed : List String) (dv : String)
    (hdv : dv ∈ allowed) :
    ∀ (fuel : Nat) (cs : List Char), ∀ v ∈ (subVoicesAux allowed dv fuel cs).2,
      v ∈ allowed := by
  intro fuel
  induction fuel with
  | zero =>
    intro cs v hv
    simp [subVoicesAux] at hv
  | succ fuel ih =>
    intro cs v hv
    cases cs with
    | nil => simp [subVoicesAux] at hv
    | cons c cs =>
      rw [subVoicesAux] at hv
      cases hm : matchVoiceAt (c :: cs) with
      | none =>
        rw [hm] at hv
        exact ih cs v hv
      | some m =>
        obtain ⟨g1, q, val, rest⟩ := m
        rw [hm] at hv
        simp only [List.mem_cons] at hv
        rcases hv with rfl | hv
        · by_cases hk : (⟨val⟩ : String) ∈ allowed

          · simpa [hk] using hk
          · have : (⟨dv.data⟩ : String) = dv := rfl
            simpa [hk, this] using hdv
        · exact ih rest v hv

/-- C5 (amended): the Markup Sanitizer either raises (with a truncated
snippet) or returns markup that parses as well-formed XML; and every voice
value written by the voice-name pattern substitution is allow-listed (a kept
match is allow-listed, a replaced one is the default instructional voice,
which the allow-list contains).  The original claim — that EVERY voice-name
attribute value of the returned markup is allow-listed — is refuted by
`sanitize_ssml_allowlist_counterexample`: a voice-name attribute written
with whitespace around `=` is legal XML but invisible to the pattern, so a
non-allow-listed name survives into well-formed returned output. -/
theorem sanitize_ssml_spec (ssml fmt iv hv ev : String) :
    (∀ out, sanitize_ssml ssml fmt iv hv ev = .ok out → xmlOk out = true) ∧
    (∀ v ∈ (subVoicesAux (allowedVoices iv hv ev) iv
        (sanitizePre ssml).length (sanitizePre ssml)).2,
      v ∈ allowedVoices iv hv ev) := by
  constructor
  · intro out hout
    simp only [sanitize_ssml] at hout
    split_ifs at hout with h1 <;>
      first
        | (simp only [Except.ok.injEq] at hout; subst hout; assumption)
        | cases hout
  · exact subVoicesAux_log_allowed (allowedVoices iv hv ev) iv
      (by simp [allowedVoices]) (sanitizePre ssml).length (sanitizePre ssml)

set_option maxRecDepth 10000 in
/-- C5 counterexample: on input `<speak><voice name = 'bad'>t</voice></speak>`
the sanitizer returns well-formed markup whose `voice` element still carries
the non-allow-listed name `bad` — the pattern `name=` does not recognise the
whitespace-separated (XML-legal) spelling, so the value is never replaced. -/
theorem sanitize_ssml_allowlist_counterexample :
    sanitize_ssml "<speak><voice name = 'bad'>t</voice></speak>"
        "instructional" "en-US-AndrewNeural" "en-US-GuyNeural" "en-US-TonyNeural"
      = .ok "<speak xml:lang=\"en-US\"><voice name = 'bad'>t</voice></speak>" ∧
    xmlVoiceNames "<speak xml:lang=\"en-US\"><voice name = 'bad'>t</voice></speak>"
      = ["bad"] ∧
    "bad" ∉ allowedVoices "en-US-AndrewNeural" "en-US-GuyNeural" "en-US-TonyNeural" := by
  refine ⟨by rfl, by decide, by decide⟩

/-! ## Claim theorems: C1 -/

/-- C1: the episode number given to position `p` of batch `b` (size `s`) is
`b*s + p + 1`; the unit at that position is the unit at global position
`b*s + p` of the deterministic flattened list; and any other
batch-index/batch-size partitioning placing a unit at the same global position
assigns it the same number. -/
theorem assignedEpisodeNumber_eq_globalPos_succ
    (skills : List Skill) (k b s p : Nat)
    (hp : p < (batchUnits skills k b s).length) :
    assignedEpisodeNumber b s p = b * s + p + 1 ∧
    (batchUnits skills k b s)[p]? = (flattenUnits skills k)[b * s + p]? ∧
    (∀ b' s' p', b' * s' + p' = b * s + p →
      assignedEpisodeNumber b' s' p' = assignedEpisodeNumber b s p) := by
  refine ⟨by simp [assignedEpisodeNumber, baseEpisodeNumber, batchStartIdx]; ring, ?_, ?_⟩
  · have hps : p < s := by
      have := hp
      simp only [batchUnits] at this
      exact lt_of_lt_of_le this (List.length_take_le _ _)
    simp only [batchUnits, batchStartIdx]
    rw [List.getElem?_take_of_lt hps, List.getElem?_drop]
  · intro b' s' p' h
    simp [assignedEpisodeNumber, baseEpisodeNumber, batchStartIdx, h]
    omega

/-- Witness for C1: the concrete scenario of the spec (one domain with 12
topics, 5 topics per episode, batch 0 of size 10) has three units; position 2
gets episode number 3 = global position 2 + 1. -/
theorem assignedEpisodeNumber_eq_globalPos_succ_witness :
    (2 < (batchUnits [⟨"Domain", ["t1", "t2", "t3", "t4", "t5", "t6", "t7", "t8",
      "t9", "t10", "t11", "t12"], []⟩] 5 0 10).length) ∧
    assignedEpisodeNumber 0 10 2 = 0 * 10 + 2 + 1 := by
  constructor
  · decide
  · exact (assignedEpisodeNumber_eq_globalPos_succ
      [⟨"Domain", ["t1", "t2", "t3", "t4", "t5", "t6", "t7", "t8", "t9", "t10",
        "t11", "t12"], []⟩] 5 0 10 2 (by decide)).1

/-! ## Claim theorems: C2 -/

/-- C2: for every narration (given as its blank-line-separated raw blocks) and
every bound, `split_narration_for_tts` returns non-empty segments; the
segments are exactly the cleaned paragraph groups joined with blank-line
separators (the trailing `.strip()` is the identity), the groups flatten back
to the input's cleaned paragraph sequence, and each segment's word count is at
most the bound unless the segment is a single paragraph whose own word count
already exceeds the bound. -/
theorem split_narration_for_tts_spec (rawParas : List String) (bound : Nat) :
    (∀ seg ∈ split_narration_for_tts rawParas bound, seg ≠ "") ∧
    (chunkParas rawParas bound).flatten = cleanParagraphs rawParas ∧
    split_narration_for_tts rawParas bound
      = (chunkParas rawParas bound).map joinParas ∧
    (∀ seg ∈ split_narration_for_tts rawParas bound,
      wordCount seg ≤ bound ∨
        ∃ p ∈ cleanParagraphs rawParas, seg = p ∧ bound < wordCount p) := by
  have hflat := chunkParasAux_flatten bound (cleanParagraphs rawParas) [] 0
  have hgroups := chunkParas_groups rawParas bound
  have hmapeq : split_narration_for_tts rawParas bound
      = (chunkParas rawParas bound).map joinParas := by
    unfold split_narration_for_tts
    exact List.map_congr_left (fun g hg => (hgroups g hg).2.2.1)
  refine ⟨?_, by unfold chunkParas; simpa using hflat, hmapeq, ?_⟩
  · intro seg hseg
    rw [hmapeq] at hseg
    obtain ⟨g, hg, rfl⟩ := List.mem_map.mp hseg
    obtain ⟨hne, hmem, _, _⟩ := hgroups g hg
    cases g with
    | nil => exact absurd rfl hne
    | cons p ps =>
      have hpd : p.data ≠ [] := (cleanParagraphs_mem _ p (hmem p (by simp))).1
      have hjoin : joinParasCh (p.data :: ps.map String.data) ≠ [] :=
        joinParasCh_ne_nil p.data _ hpd
      intro hcontra
      apply hjoin
      have hdata : (joinParas (p :: ps)).data = "".data := by rw [hcontra]
      simpa [joinParas] using hdata
  · intro seg hseg
    rw [hmapeq] at hseg
    obtain ⟨g, hg, rfl⟩ := List.mem_map.mp hseg
    obtain ⟨hne, hmem, hstrip, hwc⟩ := hgroups g hg
    have hbound := chunkParasAux_wordBound bound (cleanParagraphs rawParas) [] 0
      (by simp) (fun h => absurd rfl h) g hg
    rcases hbound with hb | ⟨p, hp, hwp⟩
    · left
      rw [hwc]
      exact hb
    · right
      refine ⟨p, hmem p (by simp [hp]), ?_, hwp⟩
      subst hp
      show joinParas [p] = p
      simp [joinParas, joinParasCh]

/-! ## Claim theorems: C3 -/

/-- The length-retry loop reports `needs_continuation` of the raw output of
whichever attempt it stops at. -/
theorem lengthRetryLoop_snd (gen : GenRequest → String) (grow : Nat → Nat)
    (ep pn : Nat) (ic : Bool) (ctx : String)
    (hgen : ∀ q, needs_continuation (gen q) = true) :
    ∀ (r mw : Nat), (lengthRetryLoop gen grow ep pn ic ctx mw r).2 = true := by
  intro r
  induction r with
  | zero =>
    intro mw
    exact hgen _
  | succ n ih =>
    intro mw
    rw [lengthRetryLoop]
    split
    · exact hgen _
    · exact ih (grow mw)

/-- The narration the length-retry loop returns is the cleaned output of one
engine call at part `pn` with continuation flag `ic` and context `ctx`. -/
theorem lengthRetryLoop_fst (gen : GenRequest → String) (grow : Nat → Nat)
    (ep pn : Nat) (ic : Bool) (ctx : String) :
    ∀ (r mw : Nat), ∃ mw',
      (lengthRetryLoop gen grow ep pn ic ctx mw r).1
        = clean_narration (gen ⟨ep, pn, ic, ctx, mw'⟩) := by
  intro r
  induction r with
  | zero =>
    intro mw
    exact ⟨mw, rfl⟩
  | succ n ih =>
    intro mw
    rw [lengthRetryLoop]
    split
    · exact ⟨mw, rfl⟩
    · exact ih (grow mw)

/-- When the engine always signals continuation and the downstream steps
succeed, the part loop runs its fuel out and returns `fuel + |docs|`
documents — with `Except.ok`, not an error. -/
theorem psdLoop_continue (gen : GenRequest → String) (grow : Nat → Nat)
    (ssmlOf : String → String → Except String String)
    (chunking : String → String → Nat → Except String AudioResult)
    (upload : String → String → String → Nat → Except String UploadResult)
    (cert fmt dom : String) (title : Option String) (base retries : Nat)
    (hgen : ∀ q, needs_continuation (gen q) = true)
    (hssml : ∀ n f, ∃ s, ssmlOf n f = .ok s)
    (hchunk : ∀ n s e, ∃ a, chunking n s e = .ok a)
    (hup : ∀ a n s e, ∃ u, upload a n s e = .ok u) :
    ∀ (parts_left pn ep : Nat) (ctx : String) (docs : List EpisodeDoc),
      ∃ docs', psdLoop gen grow ssmlOf chunking upload cert fmt dom title base
          retries parts_left pn ep ctx docs = .ok docs' ∧
        docs'.length = parts_left + docs.length := by
  intro pl
  induction pl with
  | zero =>
    intro pn ep ctx docs
    exact ⟨docs.reverse, rfl, by simp⟩
  | succ n ih =>
    intro pn ep ctx docs
    obtain ⟨s, hs⟩ := hssml
      (lengthRetryLoop gen grow ep pn (decide (1 < pn)) ctx base retries).1 fmt
    obtain ⟨a, ha⟩ := hchunk
      (lengthRetryLoop gen grow ep pn (decide (1 < pn)) ctx base retries).1 s ep
    obtain ⟨u, hu⟩ := hup a.audio_path
      (lengthRetryLoop gen grow ep pn (decide (1 < pn)) ctx base retries).1 s ep
    rw [psdLoop.eq_def]
    simp only [hs, ha, hu, lengthRetryLoop_snd gen grow ep pn (decide (1 < pn))
      ctx hgen retries base, if_true]
    obtain ⟨docs', h1, h2⟩ := ih (pn + 1) (ep + 1)
      (String.mk (((lengthRetryLoop gen grow ep pn (decide (1 < pn)) ctx base
        retries).1).data.take 500) ++ "...")
      (save_episode cert fmt ep dom u.audio_url u.script_url
        a.duration_seconds (psdTitle dom title pn) :: docs)
    refine ⟨docs', ?_, ?_⟩
    · exact h1
    · simp only [List.length_cons] at h2
      omega

set_option maxRecDepth 4000 in
/-- **C3** counterexample.  With a stub engine that always emits the
continuation marker (and trivially succeeding downstream stubs),
`process_skill_domain` does NOT raise when it reaches `max_parts = 5`: it
returns `Except.ok` with exactly the five truncated parts, contradicting the
claim that exceeding the bound raises a fatal error for the unit. -/
theorem process_skill_domain_no_raise_at_bound :
    ∃ docs, process_skill_domain stubGen stubGrow stubSsml stubChunking
        stubUpload 1 "Security" "az-500" "instructional" none 1200
        = .ok docs ∧ docs.length = 5 :=
  ⟨_, rfl, rfl⟩

/-- **C3** (amended).  `process_skill_domain` reaches its `max_parts = 5`
bound and terminates — never looping indefinitely — but SILENTLY truncates:
with any engine that always signals continuation (and succeeding downstream
steps) it returns `Except.ok` with exactly 5 episode documents; no error is
raised at the bound. -/
theorem process_skill_domain_truncates_at_max_parts
    (gen : GenRequest → String) (grow : Nat → Nat)
    (ssmlOf : String → String → Except String String)
    (chunking : String → String → Nat → Except String AudioResult)
    (upload : String → String → String → Nat → Except String UploadResult)
    (ep : Nat) (dom cert fmt : String) (title : Option String) (base : Nat)
    (hgen : ∀ q, needs_continuation (gen q) = true)
    (hssml : ∀ n f, ∃ s, ssmlOf n f = .ok s)
    (hchunk : ∀ n s e, ∃ a, chunking n s e = .ok a)
    (hup : ∀ a n s e, ∃ u, upload a n s e = .ok u) :
    ∃ docs, process_skill_domain gen grow ssmlOf chunking upload ep dom cert
        fmt title base = .ok docs ∧ docs.length = 5 := by
  obtain ⟨docs', h1, h2⟩ := psdLoop_continue gen grow ssmlOf chunking upload
    cert fmt dom title base 1 hgen hssml hchunk hup 5 1 ep "" []
  exact ⟨docs', h1, by simpa using h2⟩

/-- Witness for the amended C3 theorem at a concrete stub instantiation. -/
theorem process_skill_domain_truncates_at_max_parts_witness :
    ∃ docs, process_skill_domain stubGen stubGrow stubSsml stubChunking
        stubUpload 3 "Data Modeling" "dp-700" "podcast" none 1200
        = .ok docs ∧ docs.length = 5 :=
  process_skill_domain_truncates_at_max_parts stubGen stubGrow stubSsml
    stubChunking stubUpload 3 "Data Modeling" "dp-700" "podcast" none 1200
    (fun _ => rfl) (fun _ _ => ⟨"<speak/>", rfl⟩) (fun _ _ _ => ⟨_, rfl⟩)
    (fun _ _ _ _ => ⟨_, rfl⟩)

/-! ## Claim theorems: C8, C9, C10 (batch orchestrator) -/

/-- When every point read raises, no unit is ever skipped. -/
theorem phase1Loop_skipped_nil
    (read_item : String → String → Except String Unit)
    (gen : GenRequest → String) (grow : Nat → Nat)
    (ssmlOf : String → String → Except String String)
    (cert fmt : String) (force : Bool) (base : Nat)
    (hread : ∀ i pk, ∃ e, read_item i pk = .error e) :
    ∀ (units : List EpisodeUnit) (ep : Nat),
      (phase1Loop read_item gen grow ssmlOf cert fmt force base units
        ep).2.1 = [] := by
  intro units
  induction units with
  | nil => intro ep; rfl
  | cons u rest ih =>
    intro ep
    have hex : episode_exists read_item cert fmt ep = false := by
      obtain ⟨e, he⟩ := hread (epId cert fmt ep) cert
      simp [episode_exists, he]
    rw [phase1Loop]
    simp only [hex, Bool.and_false, Bool.false_eq_true, if_false]
    split
    · exact ih (ep + 1)
    · exact ih (ep + 1)

/-- Each unit contributes at most one prepared episode. -/
theorem phase1Loop_prepared_le
    (read_item : String → String → Except String Unit)
    (gen : GenRequest → String) (grow : Nat → Nat)
    (ssmlOf : String → String → Except String String)
    (cert fmt : String) (force : Bool) (base : Nat) :
    ∀ (units : List EpisodeUnit) (ep : Nat),
      (phase1Loop read_item gen grow ssmlOf cert fmt force base units
        ep).1.length ≤ units.length := by
  intro units
  induction units with
  | nil => intro ep; exact Nat.le_refl 0
  | cons u rest ih =>
    intro ep
    rw [phase1Loop]
    split
    · exact Nat.le_succ_of_le (ih (ep + 1))
    · split
      · exact Nat.succ_le_succ (ih (ep + 1))
      · exact Nat.le_succ_of_le (ih (ep + 1))

/-- Each prepared episode yields at most one synthesized pair. -/
theorem phase2_fst_le (synthEp : PreparedEpisode → Except String AudioResult) :
    ∀ l : List PreparedEpisode, (phase2 synthEp l).1.length ≤ l.length := by
  intro l
  induction l with
  | nil => exact Nat.le_refl 0
  | cons e rest ih =>
    rw [phase2]
    split
    · exact Nat.succ_le_succ ih
    · exact Nat.le_succ_of_le ih

/-- Each synthesized pair yields at most one saved document. -/
theorem phase3_fst_le
    (finalizeEp : PreparedEpisode → AudioResult → Except String EpisodeDoc) :
    ∀ l : List (PreparedEpisode × AudioResult),
      (phase3 finalizeEp l).1.length ≤ l.length := by
  intro l
  induction l with
  | nil => exact Nat.le_refl 0
  | cons e rest ih =>
    rw [phase3]
    split
    · exact Nat.succ_le_succ ih
    · exact Nat.le_succ_of_le ih

/-- **C8**: exit-code policy of `main`.  (i) Any recorded error makes the
run exit 1.  (ii) With a non-empty batch, zero generated and zero skipped
episodes exit 1.  (iii) With no errors, a run that generated or skipped at
least one episode exits 0 — in particular a run in which every unit was
skipped as already existing exits 0. -/
theorem runBatch_exit_code_spec
    (read_item : String → String → Except String Unit)
    (gen : GenRequest → String) (grow : Nat → Nat)
    (ssmlOf : String → String → Except String String)
    (synthEp : PreparedEpisode → Except String AudioResult)
    (finalizeEp : PreparedEpisode → AudioResult → Except String EpisodeDoc)
    (cert fmt : String) (force : Bool) (base : Nat) (skills : List Skill)
    (k bi bs : Nat) (r : BatchResult)
    (hr : r = runBatch read_item gen grow ssmlOf synthEp finalizeEp cert fmt
      force base skills k bi bs) :
    (r.errors ≠ [] → r.exitCode = 1) ∧
    (batchUnits skills k bi bs ≠ [] → r.generated = [] → r.skipped = [] →
      r.exitCode = 1) ∧
    (r.errors = [] → (r.generated ≠ [] ∨ r.skipped ≠ []) → r.exitCode = 0) := by
  subst hr
  rw [runBatch]
  split
  case isTrue h =>
    refine ⟨?_, ?_, ?_⟩
    · intro hne; exact absurd rfl hne
    · intro hu _ _; exact absurd (List.isEmpty_iff.mp h) hu
    · intro _ _; rfl
  case isFalse h =>
    dsimp only
    refine ⟨?_, ?_, ?_⟩
    · intro hne
      unfold batchExitCode
      rw [if_pos (fun h0 => hne (List.length_eq_zero.mp h0))]
    · intro _ hg hs
      rw [hg, hs]
      unfold batchExitCode
      split_ifs with h1 h2
      · rfl
      · rfl
      · exact absurd ⟨rfl, rfl⟩ h2
    · intro he hor
      rw [he]
      unfold batchExitCode
      split_ifs with h1 h2
      · exact absurd rfl h1
      · rcases hor with hg | hs
        · exact absurd (List.length_eq_zero.mp h2.1) hg
        · exact absurd (List.length_eq_zero.mp h2.2) hs
      · rfl

/-- Witness for C8: one unit whose episode already exists (point read
succeeds), no forcing: the unit is skipped, nothing errs, and the run exits
with code 0. -/
theorem runBatch_exit_code_spec_witness :
    (runBatch (fun _ _ => .ok ()) stubGen stubGrow stubSsml
      (fun _ => .ok ⟨"/tmp/a.mp3", 1, "a.mp3"⟩)
      (fun p a => .ok (save_episode "dp-700" "instructional" p.episode_number
        p.skill_domain "u" "s" a.duration_seconds p.episode_title))
      "dp-700" "instructional" false 1200
      [⟨"Modeling", ["t1", "t2"], []⟩] 1 0 10).exitCode = 0 :=
  (runBatch_exit_code_spec (fun _ _ => .ok ()) stubGen stubGrow stubSsml
    (fun _ => .ok ⟨"/tmp/a.mp3", 1, "a.mp3"⟩)
    (fun p a => .ok (save_episode "dp-700" "instructional" p.episode_number
      p.skill_domain "u" "s" a.duration_seconds p.episode_title))
    "dp-700" "instructional" false 1200
    [⟨"Modeling", ["t1", "t2"], []⟩] 1 0 10 _ rfl).2.2 rfl
    (Or.inr (by decide))

/-- **C9**: on the two-phase path `main` actually runs, `prepare_episode`
produces the cleaned narration of a single engine call — the continuation
marker is stripped without `needs_continuation` ever being consulted, so the
continuation signal is discarded — and each non-skipped unit contributes at
most one episode document per invocation (`generated` is bounded by the
batch's unit count). -/
theorem prepare_episode_single_doc
    (gen : GenRequest → String) (grow : Nat → Nat)
    (ssmlOf : String → String → Except String String)
    (read_item : String → String → Except String Unit)
    (synthEp : PreparedEpisode → Except String AudioResult)
    (finalizeEp : PreparedEpisode → AudioResult → Except String EpisodeDoc)
    (cert fmt : String) (force : Bool) (base : Nat) (skills : List Skill)
    (k bi bs : Nat) (ep : Nat) (dom title : String) :
    (∀ prep, prepare_episode gen grow ssmlOf ep dom title fmt base = .ok prep →
      prep.episode_number = ep ∧
      ∃ mw, prep.narration
        = clean_narration (gen ⟨ep, 1, false, "", mw⟩)) ∧
    (runBatch read_item gen grow ssmlOf synthEp finalizeEp cert fmt force base
        skills k bi bs).generated.length
      ≤ (batchUnits skills k bi bs).length := by
  constructor
  · intro prep hprep
    unfold prepare_episode at hprep
    dsimp only at hprep
    split at hprep
    · cases hprep
    · rename_i s hs
      injection hprep with hprep
      subst hprep
      exact ⟨rfl, lengthRetryLoop_fst gen grow ep 1 false "" 1 base⟩
  · rw [runBatch]
    split
    · exact Nat.zero_le _
    · dsimp only
      calc (phase3 finalizeEp (phase2 synthEp (phase1Loop read_item gen grow
              ssmlOf cert fmt force base (batchUnits skills k bi bs)
              (baseEpisodeNumber bi bs)).1).1).1.length
          ≤ (phase2 synthEp (phase1Loop read_item gen grow ssmlOf cert fmt
              force base (batchUnits skills k bi bs)
              (baseEpisodeNumber bi bs)).1).1.length :=
            phase3_fst_le finalizeEp _
        _ ≤ (phase1Loop read_item gen grow ssmlOf cert fmt force base
              (batchUnits skills k bi bs)
              (baseEpisodeNumber bi bs)).1.length := phase2_fst_le synthEp _
        _ ≤ (batchUnits skills k bi bs).length :=
            phase1Loop_prepared_le read_item gen grow ssmlOf cert fmt force
              base _ _

/-- Witness for C9 at a concrete stub instantiation: the prepared narration
is the marker-stripped engine output, and the generated count is bounded by
the unit count. -/
theorem prepare_episode_single_doc_witness :
    ((⟨4, "Dom", "T", "More to come.", "<speak/>"⟩ :
        PreparedEpisode).episode_number = 4 ∧
      ∃ mw, (⟨4, "Dom", "T", "More to come.", "<speak/>"⟩ :
        PreparedEpisode).narration
          = clean_narration (stubGen ⟨4, 1, false, "", mw⟩)) ∧
    (runBatch (fun _ _ => .error "x") stubGen stubGrow stubSsml
        (fun _ => .ok ⟨"/tmp/a.mp3", 1, "a.mp3"⟩)
        (fun p a => .ok (save_episode "dp-700" "instructional"
          p.episode_number p.skill_domain "u" "s" a.duration_seconds
          p.episode_title))
        "dp-700" "instructional" false 10
        [⟨"Dom", ["t1"], []⟩] 1 0 10).generated.length
      ≤ (batchUnits [⟨"Dom", ["t1"], []⟩] 1 0 10).length :=
  ⟨(prepare_episode_single_doc stubGen stubGrow stubSsml
      (fun _ _ => .error "x") (fun _ => .ok ⟨"/tmp/a.mp3", 1, "a.mp3"⟩)
      (fun p a => .ok (save_episode "dp-700" "instructional" p.episode_number
        p.skill_domain "u" "s" a.duration_seconds p.episode_title))
      "dp-700" "instructional" false 10 [⟨"Dom", ["t1"], []⟩] 1 0 10 4 "Dom"
      "T").1 _ rfl,
    (prepare_episode_single_doc stubGen stubGrow stubSsml
      (fun _ _ => .error "x") (fun _ => .ok ⟨"/tmp/a.mp3", 1, "a.mp3"⟩)
      (fun p a => .ok (save_episode "dp-700" "instructional" p.episode_number
        p.skill_domain "u" "s" a.duration_seconds p.episode_title))
      "dp-700" "instructional" false 10 [⟨"Dom", ["t1"], []⟩] 1 0 10 4 "Dom"
      "T").2⟩

/-- **C10**: `episode_exists` is `True` exactly when the point read of
document id `{cert}-{fmt}-{n:03d}` (partition key `cert`) succeeds; ANY
exception — transient or otherwise — yields `False`, and in that case the
orchestrator does not skip a single unit: it proceeds to regenerate (the
eventual store write being an upsert). -/
theorem episode_exists_spec
    (read_item : String → String → Except String Unit)
    (cert fmt : String) (n : Nat)
    (gen : GenRequest → String) (grow : Nat → Nat)
    (ssmlOf : String → String → Except String String)
    (synthEp : PreparedEpisode → Except String AudioResult)
    (finalizeEp : PreparedEpisode → AudioResult → Except String EpisodeDoc)
    (force : Bool) (base : Nat) (skills : List Skill) (k bi bs : Nat) :
    (episode_exists read_item cert fmt n = true ↔
      read_item (cert ++ "-" ++ fmt ++ "-" ++ pad3 n) cert = .ok ()) ∧
    ((∀ i pk, ∃ e, read_item i pk = .error e) →
      (runBatch read_item gen grow ssmlOf synthEp finalizeEp cert fmt force
        base skills k bi bs).skipped = []) := by
  constructor
  · unfold episode_exists epId
    cases h : read_item (cert ++ "-" ++ fmt ++ "-" ++ pad3 n) cert with
    | ok u =>
      cases u
      simp [h]
    | error e =>
      simp [h]
  · intro hread
    rw [runBatch]
    split
    · rfl
    · exact phase1Loop_skipped_nil read_item gen grow ssmlOf cert fmt force
        base hread _ _

/-- Witness for C10: a store that always raises (e.g. a 503) makes
`episode_exists` return `False` and the orchestrator skip nothing. -/
theorem episode_exists_spec_witness :
    ((episode_exists (fun _ _ => .error "ServiceUnavailable 503") "dp-700"
        "instructional" 7 = true ↔
      (fun _ _ => (.error "ServiceUnavailable 503" : Except String Unit))
        ("dp-700" ++ "-" ++ "instructional" ++ "-" ++ pad3 7) "dp-700"
          = .ok ()) ∧
    (runBatch (fun _ _ => .error "ServiceUnavailable 503") stubGen stubGrow
      stubSsml (fun _ => .ok ⟨"/tmp/a.mp3", 1, "a.mp3"⟩)
      (fun p a => .ok (save_episode "dp-700" "instructional" p.episode_number
        p.skill_domain "u" "s" a.duration_seconds p.episode_title))
      "dp-700" "instructional" false 10
      [⟨"Dom", ["t1"], []⟩] 1 0 10).skipped = []) :=
  ⟨(episode_exists_spec (fun _ _ => .error "ServiceUnavailable 503") "dp-700"
    "instructional" 7 stubGen stubGrow stubSsml
    (fun _ => .ok ⟨"/tmp/a.mp3", 1, "a.mp3"⟩)
    (fun p a => .ok (save_episode "dp-700" "instructional" p.episode_number
      p.skill_domain "u" "s" a.duration_seconds p.episode_title))
    false 10 [⟨"Dom", ["t1"], []⟩] 1 0 10).1,
   (episode_exists_spec (fun _ _ => .error "ServiceUnavailable 503") "dp-700"
    "instructional" 7 stubGen stubGrow stubSsml
    (fun _ => .ok ⟨"/tmp/a.mp3", 1, "a.mp3"⟩)
    (fun p a => .ok (save_episode "dp-700" "instructional" p.episode_number
      p.skill_domain "u" "s" a.duration_seconds p.episode_title))
    false 10 [⟨"Dom", ["t1"], []⟩] 1 0 10).2 (fun _ _ => ⟨_, rfl⟩)⟩

/-! ## Filesystem lemmas for the synthesis model (C6, C7) -/

/-- Removal deletes exactly the entries at the removed path. -/
theorem fsLookup_remove (p q : String) :
    ∀ fs : FS, fsLookup (fsRemove fs p) q
      = if q = p then none else fsLookup fs q := by
  intro fs
  induction fs with
  | nil => simp [fsRemove, fsLookup]
  | cons e rest ih =>
    rw [fsRemove]
    by_cases hep : e.1 = p
    · rw [if_pos hep, ih, fsLookup]
      by_cases hqp : q = p
      · simp [hqp]
      · rw [if_neg hqp, if_neg hqp,
          if_neg (fun h : e.1 = q => hqp (h ▸ hep))]
    · rw [if_neg hep, fsLookup, fsLookup, ih]
      by_cases heq : e.1 = q
      · rw [if_pos heq, if_pos heq,
          if_neg (fun h : q = p => hep (heq.symm ▸ h))]
      · rw [if_neg heq, if_neg heq]

/-- Writing creates exactly one entry at the written path. -/
theorem fsLookup_write (fs : FS) (p : String) (b : AudioBytes) (q : String) :
    fsLookup (fsWrite fs p b) q = if q = p then some b else fsLookup fs q := by
  by_cases h : q = p
  · subst h
    simp [fsWrite, fsLookup, fsLookup_remove]
  · simp only [fsWrite, fsLookup, fsLookup_remove, if_neg h,
      if_neg (fun hh : p = q => h hh.symm)]

/-- Folding removals over a list of paths deletes exactly those paths. -/
theorem fsLookup_removeAll (q : String) :
    ∀ (l : List String) (fs : FS),
      fsLookup (l.foldl fsRemove fs) q
        = if q ∈ l then none else fsLookup fs q := by
  intro l
  induction l with
  | nil => intro fs; simp
  | cons p rest ih =>
    intro fs
    rw [List.foldl_cons, ih, fsLookup_remove]
    by_cases h1 : q ∈ rest
    · simp [h1]
    · by_cases h2 : q = p <;> simp [h1, h2]

/-- Failure analysis of the segment loop: as soon as some remaining segment
fails to synthesize, the loop returns `(False, 0)` after removing every temp
part it has accumulated; paths that are neither part paths (within the index
window) nor already-accumulated temps are untouched, and every part path
ends up either removed or untouched. -/
theorem segLoop_fail (synth : String → Option AudioBytes) (out : String) :
    ∀ (segs : List String) (fs : FS) (idx : Nat) (temps : List String)
      (total : ℚ),
      (∃ seg ∈ segs, synth seg = none) →
      (∀ q ∈ temps, ∃ i, q = partPath out i) →
      ∃ fs', segLoop synth out segs fs idx temps total = (fs', false, 0) ∧
        (∀ q ∈ temps, fsLookup fs' q = none) ∧
        (∀ q, (∀ i, i < idx + segs.length → q ≠ partPath out i) →
          q ∉ temps → fsLookup fs' q = fsLookup fs q) ∧
        (∀ i, fsLookup fs' (partPath out i) = none ∨
          fsLookup fs' (partPath out i) = fsLookup fs (partPath out i)) := by
  intro segs
  induction segs with
  | nil =>
    intro fs idx temps total hfail htemps
    exact absurd hfail (by simp)
  | cons seg rest ih =>
    intro fs idx temps total hfail htemps
    rw [segLoop]
    cases hb : synth seg with
    | none =>
      refine ⟨temps.foldl fsRemove fs, ?_, ?_, ?_, ?_⟩
      · simp only [synthesize_ssml, hb, if_neg (by simp : ¬(false = true))]
      · intro q hq
        rw [fsLookup_removeAll, if_pos hq]
      · intro q _ hqt
        rw [fsLookup_removeAll, if_neg hqt]
      · intro i
        by_cases hm : partPath out i ∈ temps
        · left
          rw [fsLookup_removeAll, if_pos hm]
        · right
          rw [fsLookup_removeAll, if_neg hm]
    | some bytes =>
      have hfail' : ∃ s ∈ rest, synth s = none := by
        rcases hfail with ⟨s, hs, hn⟩
        rcases List.mem_cons.mp hs with h1 | h2
        · subst h1
          rw [hb] at hn
          cases hn
        · exact ⟨s, h2, hn⟩
      have htemps' : ∀ q ∈ partPath out idx :: temps,
          ∃ i, q = partPath out i := by
        intro q hq
        rcases List.mem_cons.mp hq with h1 | h2
        · exact ⟨idx, h1⟩
        · exact htemps q h2
      obtain ⟨fs', h1, h2, h3, h4⟩ := ih
        (fsWrite fs (partPath out idx) bytes) (idx + 1)
        (partPath out idx :: temps)
        (total + (bytes.length * 8 : ℚ) / 192000) hfail' htemps'
      refine ⟨fs', ?_, ?_, ?_, ?_⟩
      · simp only [synthesize_ssml, hb]
        exact h1
      · intro q hq
        exact h2 q (List.mem_cons_of_mem _ hq)
      · intro q hqp hqt
        have hne : q ≠ partPath out idx := hqp idx (by simp)
        rw [h3 q (fun i hi => hqp i (by simpa [Nat.add_right_comm] using hi))
            (by simp [hqt, hne]),
          fsLookup_write, if_neg hne]
      · intro i
        by_cases hip : partPath out i = partPath out idx
        · left
          exact h2 (partPath out i) (by simp [hip])
        · rcases h4 i with hl | hr
          · exact Or.inl hl
          · right
            rw [hr, fsLookup_write, if_neg hip]

/-- Success analysis of the segment loop, tracking the written parts as a
ghost list (newest first).  If every remaining segment synthesizes, the loop
returns `True` with the running total plus the per-segment durations, and
the final output file holds the previously-written bytes followed by the new
segments' bytes in order.  Part paths must be distinct within the index
window and distinct from the output path. -/
theorem segLoop_ok (synth : String → Option AudioBytes) (out : String) :
    ∀ (segs : List String) (fs : FS) (idx : Nat)
      (written : List (String × AudioBytes)) (total : ℚ),
      (∀ seg ∈ segs, (synth seg).isSome = true) →
      (∀ i j, i < idx + segs.length → j < idx + segs.length → i ≠ j →
        partPath out i ≠ partPath out j) →
      (∀ i, i < idx + segs.length → partPath out i ≠ out) →
      (∀ e ∈ written, fsLookup fs e.1 = some e.2) →
      (∀ e ∈ written, ∃ i, i < idx ∧ e.1 = partPath out i) →
      ∃ fs', segLoop synth out segs fs idx (written.map Prod.fst) total
          = (fs', true, total + (segs.map (fun s =>
              (((synth s).getD []).length * 8 : ℚ) / 192000)).sum) ∧
        fsLookup fs' out
          = some ((written.reverse.map Prod.snd).flatten
              ++ (segs.map (fun s => (synth s).getD [])).flatten) := by
  intro segs
  induction segs with
  | nil =>
    intro fs idx written total _ _ houtd hw hwi
    rw [segLoop]
    have hbytes : ((written.map Prod.fst).reverse.map
          (fun p => (fsLookup fs p).getD [])).flatten
        = (written.reverse.map Prod.snd).flatten := by
      rw [← List.map_reverse, List.map_map]
      congr 1
      refine List.map_congr_left ?_
      intro e he
      have hmem : e ∈ written := List.mem_reverse.mp he
      show (fsLookup fs e.1).getD [] = e.2
      rw [hw e hmem]
      rfl
    have hout_notin : out ∉ written.map Prod.fst := by
      intro hmem
      rcases List.mem_map.mp hmem with ⟨e, he, heq⟩
      obtain ⟨i, hi, hpi⟩ := hwi e he
      exact houtd i (by simpa using hi) (by rw [← hpi, heq])
    refine ⟨(written.map Prod.fst).foldl fsRemove
      (fsWrite fs out (((written.map Prod.fst).reverse.map
        (fun p => (fsLookup fs p).getD [])).flatten)), ?_, ?_⟩
    · simp
    · rw [fsLookup_removeAll, if_neg hout_notin, hbytes, fsLookup_write,
        if_pos rfl]
      simp
  | cons seg rest ih =>
    intro fs idx written total hsome hdis houtd hw hwi
    obtain ⟨bytes, hb⟩ := Option.isSome_iff_exists.mp (hsome seg (by simp))
    have hsum : total + (((seg :: rest).map (fun s =>
          (((synth s).getD []).length * 8 : ℚ) / 192000)).sum)
        = (total + (bytes.length * 8 : ℚ) / 192000)
          + ((rest.map (fun s =>
            (((synth s).getD []).length * 8 : ℚ) / 192000)).sum) := by
      simp only [List.map_cons, List.sum_cons, hb, Option.getD_some]
      ring
    obtain ⟨fs', h1, h2⟩ := ih (fsWrite fs (partPath out idx) bytes) (idx + 1)
      ((partPath out idx, bytes) :: written)
      (total + (bytes.length * 8 : ℚ) / 192000)
      (fun s hs => hsome s (List.mem_cons_of_mem _ hs))
      (fun i j hi hj => hdis i j (by simpa [Nat.add_right_comm] using hi)
        (by simpa [Nat.add_right_comm] using hj))
      (fun i hi => houtd i (by simpa [Nat.add_right_comm] using hi))
      (by
        intro e he
        rcases List.mem_cons.mp he with h1 | h2
        · subst h1
          rw [fsLookup_write, if_pos rfl]
        · obtain ⟨i, hi, hpi⟩ := hwi e h2
          have hne : e.1 ≠ partPath out idx := by
            rw [hpi]
            exact hdis i idx (by simp only [List.length_cons]; omega)
              (by simp only [List.length_cons]; omega) (by omega)
          rw [fsLookup_write, if_neg hne]
          exact hw e h2)
      (by
        intro e he
        rcases List.mem_cons.mp he with h1 | h2
        · subst h1
          exact ⟨idx, by omega, rfl⟩
        · obtain ⟨i, hi, hpi⟩ := hwi e h2
          exact ⟨i, by omega, hpi⟩)
    rw [segLoop]
    simp only [synthesize_ssml, hb]
    refine ⟨fs', ?_, ?_⟩
    · rw [hsum]
      exact h1
    · rw [h2]
      congr 1
      simp only [List.reverse_cons, List.map_append, List.map_cons,
        List.map_nil, List.flatten_append, List.flatten_cons,
        List.flatten_nil, List.append_nil, List.append_assoc, hb,
        Option.getD_some]

/-! ## Claim theorems: C6 -/

/-- **C6**: the Chunked Synthesis Driver.  (i) When the narration's word
count is at or below 900 it returns the result of a single
`synthesize_audio` call on the full markup, unchanged.  (ii) Otherwise it
re-segments the narration, builds markup per segment, synthesizes each
segment, reports as total duration exactly the sum of the per-segment
durations, and writes to the final output path the concatenation of the
segments' raw bytes in segment order. -/
theorem synthesize_audio_with_chunking_spec
    (synth : String → Option AudioBytes) (narrParas : List String)
    (ssml : String) (ep : Nat) (cert fmt tmp : String) (fs : FS)
    (out : String) (hout : out = tmp ++ "/" ++ audioFilename cert fmt ep) :
    ((narrParas.map wordCount).sum ≤ 900 →
      synthesize_audio_with_chunking synth narrParas ssml ep cert fmt tmp fs
        = synthesize_audio synth ssml ep cert fmt tmp fs) ∧
    (∀ ssmlSegs : List String,
      900 < (narrParas.map wordCount).sum →
      mapExcept (fun seg => build_ssml_from_narration seg fmt)
        (split_narration_for_tts narrParas 850) = .ok ssmlSegs →
      ssmlSegs ≠ [] →
      (∀ seg ∈ ssmlSegs, (synth seg).isSome = true) →
      (∀ i, i < 1 + ssmlSegs.length → ∀ j, j < 1 + ssmlSegs.length →
        i ≠ j → partPath out i ≠ partPath out j) →
      (∀ i, i < 1 + ssmlSegs.length → partPath out i ≠ out) →
      ∃ fs', synthesize_audio_with_chunking synth narrParas ssml ep cert fmt
          tmp fs
          = (fs', .ok ⟨out, (ssmlSegs.map (fun s =>
              (((synth s).getD []).length * 8 : ℚ) / 192000)).sum,
              audioFilename cert fmt ep⟩) ∧
        fsLookup fs' out
          = some ((ssmlSegs.map (fun s => (synth s).getD [])).flatten)) := by
  constructor
  · intro hshort
    rw [synthesize_audio_with_chunking, if_pos hshort]
  · intro ssmlSegs hlong hbuild hne hsome hdis houtd
    obtain ⟨fs', h1, h2⟩ := segLoop_ok synth out ssmlSegs fs 1 [] 0 hsome
      (fun i j hi hj => hdis i (by omega) j (by omega))
      (fun i hi => houtd i (by omega))
      (by simp) (by simp)
    rw [zero_add] at h1
    simp only [List.map_nil] at h1
    subst hout
    rw [synthesize_audio_with_chunking, if_neg (not_le.mpr hlong)]
    dsimp only
    rw [hbuild]
    dsimp only
    rw [synthesize_audio_segments,
      if_neg (by simp [List.isEmpty_iff, hne] : ¬(ssmlSegs.isEmpty = true)),
      h1]
    exact ⟨fs', rfl, by simpa using h2⟩

/-- A list maps through a fallible function successfully iff every element
does; the output count equals the input count. -/
theorem mapExcept_ok_of_all (f : α → Except ε β) :
    ∀ l : List α, (∀ a ∈ l, ∃ b, f a = .ok b) →
      ∃ bs, mapExcept f l = .ok bs ∧ bs.length = l.length := by
  intro l
  induction l with
  | nil => intro _; exact ⟨[], rfl, rfl⟩
  | cons a as ih =>
    intro h
    obtain ⟨b, hb⟩ := h a (by simp)
    obtain ⟨bs, hbs, hlen⟩ := ih (fun x hx => h x (by simp [hx]))
    refine ⟨b :: bs, ?_, by simp [hlen]⟩
    rw [mapExcept, hb, hbs]

/-- Every character of `wPara` is XML-valid (membership reasoning on the
`replicate`, avoiding a 999-step evaluation). -/
theorem wPara_chars : ∀ c ∈ wPara.data, xmlValidChar c = true := by
  intro c hc
  have hc' : c ∈ (List.replicate 499 ('a' :: [' '])).flatten ++ ['a'] := hc
  rcases List.mem_append.mp hc' with h | h
  · obtain ⟨l, hl, hcl⟩ := List.mem_flatten.mp h
    rw [List.eq_of_mem_replicate hl] at hcl
    simp only [List.mem_cons, List.mem_singleton, List.not_mem_nil,
      or_false] at hcl
    rcases hcl with rfl | rfl
    · decide
    · decide
  · rw [List.mem_singleton] at h
    subst h
    decide

/-- Every character of `wParaB` is XML-valid. -/
theorem wParaB_chars : ∀ c ∈ wParaB.data, xmlValidChar c = true := by
  intro c hc
  have hc' : c ∈ (List.replicate 499 ('q' :: [' '])).flatten ++ ['q'] := hc
  rcases List.mem_append.mp hc' with h | h
  · obtain ⟨l, hl, hcl⟩ := List.mem_flatten.mp h
    rw [List.eq_of_mem_replicate hl] at hcl
    simp only [List.mem_cons, List.mem_singleton, List.not_mem_nil,
      or_false] at hcl
    rcases hcl with rfl | rfl
    · decide
    · decide
  · rw [List.mem_singleton] at h
    subst h
    decide

set_option maxRecDepth 100000 in
/-- Witness for C6: a 2-word narration takes the single-call path, and the
1500-word `wParas` narration is chunked into three segments whose durations
sum and whose bytes concatenate into the final output file. -/
theorem synthesize_audio_with_chunking_spec_witness :
    (synthesize_audio_with_chunking wSynth ["hello world"] "<speak/>" 1 "c"
        "f" "/tmp" []
      = synthesize_audio wSynth "<speak/>" 1 "c" "f" "/tmp" []) ∧
    ∃ segs fs', segs.length = 3 ∧
      mapExcept (fun seg => build_ssml_from_narration seg "instructional")
          (split_narration_for_tts wParas 850) = .ok segs ∧
      synthesize_audio_with_chunking wSynth wParas "ignored" 3 "dp-700"
          "instructional" "/tmp/x" []
        = (fs', .ok ⟨"/tmp/x" ++ "/" ++ audioFilename "dp-700"
              "instructional" 3,
            (segs.map (fun s =>
              (((wSynth s).getD []).length * 8 : ℚ) / 192000)).sum,
            audioFilename "dp-700" "instructional" 3⟩) ∧
      fsLookup fs'
          ("/tmp/x" ++ "/" ++ audioFilename "dp-700" "instructional" 3)
        = some ((segs.map (fun s => (wSynth s).getD [])).flatten) := by
  constructor
  · exact (synthesize_audio_with_chunking_spec wSynth ["hello world"]
      "<speak/>" 1 "c" "f" "/tmp" []
      ("/tmp" ++ "/" ++ audioFilename "c" "f" 1) rfl).1 (by decide)
  · have hseq : split_narration_for_tts wParas 850 = [wPara, wParaB, wPara] :=
      by decide
    have hvalid : ∀ seg ∈ split_narration_for_tts wParas 850,
        ∀ c ∈ seg.data, xmlValidChar c = true := by
      rw [hseq]
      intro seg hseg
      simp only [List.mem_cons, List.mem_singleton, List.not_mem_nil,
        or_false] at hseg
      rcases hseg with rfl | rfl | rfl
      · exact wPara_chars
      · exact wParaB_chars
      · exact wPara_chars
    obtain ⟨segs, hsegs, hlen⟩ := mapExcept_ok_of_all
      (fun seg => build_ssml_from_narration seg "instructional")
      (split_narration_for_tts wParas 850)
      (fun seg hseg =>
        (build_ssml_ok_of_valid seg "instructional" "en-US-AndrewNeural"
          "en-US-GuyNeural" "en-US-TonyNeural" (by decide) (by decide)
          (by decide) (hvalid seg hseg)).imp (fun s h => h.1))
    have hlen3 : segs.length = 3 := by
      rw [hlen]
      decide
    obtain ⟨fs', heq, hlook⟩ := (synthesize_audio_with_chunking_spec wSynth
      wParas "ignored" 3 "dp-700" "instructional" "/tmp/x" []
      ("/tmp/x" ++ "/" ++ audioFilename "dp-700" "instructional" 3) rfl).2
      segs (by decide) hsegs
      (by intro h; rw [h] at hlen3; cases hlen3)
      (fun _ _ => rfl)
      (by rw [hlen3]; decide)
      (by rw [hlen3]; decide)
    exact ⟨segs, fs', hlen3, hsegs, heq, hlook⟩

/-! ## Claim theorems: C7 -/

/-- **C7**: failure of any single segment aborts the whole chunked
synthesis.  (i) `synthesize_audio_segments` reports failure as `(False, 0)`;
afterwards every non-part path (the final output path in particular) keeps
its initial contents, and every temporary part path is absent (given a clean
temp area) or at worst untouched — the parts already produced have been
removed.  (ii) The driver then raises `RuntimeError` for that episode, with
the same cleanup guarantees. -/
theorem chunked_synthesis_failure_cleanup
    (synth : String → Option AudioBytes) (narrParas : List String)
    (ssml : String) (ep : Nat) (cert fmt tmp : String) (fs : FS)
    (out : String) (hout : out = tmp ++ "/" ++ audioFilename cert fmt ep) :
    (∀ (ssmlSegs : List String) (fsA : FS),
      (∃ seg ∈ ssmlSegs, synth seg = none) →
      ∃ fs', synthesize_audio_segments synth ssmlSegs out fsA
          = (fs', false, 0) ∧
        (∀ q, (∀ i, i < 1 + ssmlSegs.length → q ≠ partPath out i) →
          fsLookup fs' q = fsLookup fsA q) ∧
        (∀ i, fsLookup fs' (partPath out i) = none ∨
          fsLookup fs' (partPath out i) = fsLookup fsA (partPath out i)) ∧
        ((∀ i, fsLookup fsA (partPath out i) = none) →
          ∀ i, fsLookup fs' (partPath out i) = none) ∧
        ((∀ i, i < 1 + ssmlSegs.length → partPath out i ≠ out) →
          fsLookup fs' out = fsLookup fsA out)) ∧
    (∀ ssmlSegs : List String,
      900 < (narrParas.map wordCount).sum →
      mapExcept (fun seg => build_ssml_from_narration seg fmt)
        (split_narration_for_tts narrParas 850) = .ok ssmlSegs →
      (∃ seg ∈ ssmlSegs, synth seg = none) →
      ∃ fs', synthesize_audio_with_chunking synth narrParas ssml ep cert fmt
          tmp fs
          = (fs', .error ("Audio synthesis failed for episode "
              ++ toString ep)) ∧
        ((∀ i, fsLookup fs (partPath out i) = none) →
          ∀ i, fsLookup fs' (partPath out i) = none) ∧
        ((∀ i, i < 1 + ssmlSegs.length → partPath out i ≠ out) →
          fsLookup fs' out = fsLookup fs out)) := by
  subst hout
  have key : ∀ (ssmlSegs : List String) (fsA : FS),
      (∃ seg ∈ ssmlSegs, synth seg = none) →
      ∃ fs', synthesize_audio_segments synth ssmlSegs
          (tmp ++ "/" ++ audioFilename cert fmt ep) fsA = (fs', false, 0) ∧
        (∀ q, (∀ i, i < 1 + ssmlSegs.length →
            q ≠ partPath (tmp ++ "/" ++ audioFilename cert fmt ep) i) →
          fsLookup fs' q = fsLookup fsA q) ∧
        (∀ i, fsLookup fs'
            (partPath (tmp ++ "/" ++ audioFilename cert fmt ep) i) = none ∨
          fsLookup fs'
              (partPath (tmp ++ "/" ++ audioFilename cert fmt ep) i)
            = fsLookup fsA
              (partPath (tmp ++ "/" ++ audioFilename cert fmt ep) i)) ∧
        ((∀ i, fsLookup fsA
            (partPath (tmp ++ "/" ++ audioFilename cert fmt ep) i) = none) →
          ∀ i, fsLookup fs'
            (partPath (tmp ++ "/" ++ audioFilename cert fmt ep) i) = none) ∧
        ((∀ i, i < 1 + ssmlSegs.length →
            partPath (tmp ++ "/" ++ audioFilename cert fmt ep) i
              ≠ tmp ++ "/" ++ audioFilename cert fmt ep) →
          fsLookup fs' (tmp ++ "/" ++ audioFilename cert fmt ep)
            = fsLookup fsA (tmp ++ "/" ++ audioFilename cert fmt ep)) := by
    intro ssmlSegs fsA hfail
    have hne : ssmlSegs ≠ [] := by
      rcases hfail with ⟨s, hs, _⟩
      exact List.ne_nil_of_mem hs
    obtain ⟨fs', h1, h2, h3, h4⟩ := segLoop_fail synth
      (tmp ++ "/" ++ audioFilename cert fmt ep) ssmlSegs fsA 1 [] 0 hfail
      (by simp)
    refine ⟨fs', ?_, ?_, ?_, ?_, ?_⟩
    · rw [synthesize_audio_segments,
        if_neg (by simp [List.isEmpty_iff, hne] :
          ¬(ssmlSegs.isEmpty = true))]
      exact h1
    · intro q hq
      exact h3 q hq (List.not_mem_nil q)
    · exact h4
    · intro hfresh i
      rcases h4 i with hl | hr
      · exact hl
      · rw [hr]
        exact hfresh i
    · intro houtd
      exact h3 (tmp ++ "/" ++ audioFilename cert fmt ep)
        (fun i hi => (houtd i hi).symm)
        (List.not_mem_nil (tmp ++ "/" ++ audioFilename cert fmt ep))
  refine ⟨key, ?_⟩
  intro ssmlSegs hlong hbuild hfail
  obtain ⟨fs', h1, h2, h3, h4, h5⟩ := key ssmlSegs fs hfail
  rw [synthesize_audio_with_chunking, if_neg (not_le.mpr hlong)]
  dsimp only
  rw [hbuild]
  dsimp only
  rw [h1]
  exact ⟨fs', rfl, h4, h5⟩

set_option maxRecDepth 100000 in
/-- Witness for C7: (i) a three-segment run whose second segment fails
returns `(False, 0)` with the first segment's temp part removed and the
output path untouched; (ii) with synthesis failing outright, the driver
raises for the long `wParas` narration and writes nothing. -/
theorem chunked_synthesis_failure_cleanup_witness :
    (∃ fs', synthesize_audio_segments
        (fun s => if s = "s2" then none else some [7]) ["s1", "s2", "s3"]
        ("/tmp/y" ++ "/" ++ audioFilename "c" "f" 5) [] = (fs', false, 0) ∧
      (∀ i, fsLookup fs'
        (partPath ("/tmp/y" ++ "/" ++ audioFilename "c" "f" 5) i) = none) ∧
      fsLookup fs' ("/tmp/y" ++ "/" ++ audioFilename "c" "f" 5)
        = fsLookup [] ("/tmp/y" ++ "/" ++ audioFilename "c" "f" 5)) ∧
    (∃ segs fs',
      mapExcept (fun seg => build_ssml_from_narration seg "instructional")
          (split_narration_for_tts wParas 850) = .ok segs ∧
      synthesize_audio_with_chunking (fun _ => none) wParas "ignored" 9
          "dp-700" "instructional" "/tmp/z" []
        = (fs', .error ("Audio synthesis failed for episode "
            ++ toString 9)) ∧
      (∀ i, fsLookup fs'
        (partPath ("/tmp/z" ++ "/" ++ audioFilename "dp-700" "instructional"
          9) i) = none) ∧
      fsLookup fs'
          ("/tmp/z" ++ "/" ++ audioFilename "dp-700" "instructional" 9)
        = fsLookup []
          ("/tmp/z" ++ "/" ++ audioFilename "dp-700" "instructional" 9)) := by
  constructor
  · obtain ⟨fs', h1, h2, h3, h4, h5⟩ := (chunked_synthesis_failure_cleanup
      (fun s => if s = "s2" then none else some [7]) [] "x" 5 "c" "f"
      "/tmp/y" [] ("/tmp/y" ++ "/" ++ audioFilename "c" "f" 5) rfl).1
      ["s1", "s2", "s3"] [] ⟨"s2", by decide, by decide⟩
    exact ⟨fs', h1, h4 (fun _ => rfl), h5 (by decide)⟩
  · have hseq : split_narration_for_tts wParas 850 = [wPara, wParaB, wPara] :=
      by decide
    have hvalid : ∀ seg ∈ split_narration_for_tts wParas 850,
        ∀ c ∈ seg.data, xmlValidChar c = true := by
      rw [hseq]
      intro seg hseg
      simp only [List.mem_cons, List.mem_singleton, List.not_mem_nil,
        or_false] at hseg
      rcases hseg with rfl | rfl | rfl
      · exact wPara_chars
      · exact wParaB_chars
      · exact wPara_chars
    obtain ⟨segs, hsegs, hlen⟩ := mapExcept_ok_of_all
      (fun seg => build_ssml_from_narration seg "instructional")
      (split_narration_for_tts wParas 850)
      (fun seg hseg =>
        (build_ssml_ok_of_valid seg "instructional" "en-US-AndrewNeural"
          "en-US-GuyNeural" "en-US-TonyNeural" (by decide) (by decide)
          (by decide) (hvalid seg hseg)).imp (fun s h => h.1))
    have hlen3 : segs.length = 3 := by
      rw [hlen]
      decide
    have hne : segs ≠ [] := by
      intro h
      rw [h] at hlen3
      cases hlen3
    obtain ⟨s0, hs0⟩ := List.exists_mem_of_ne_nil segs hne
    obtain ⟨fs', h1, h2, h3⟩ := (chunked_synthesis_failure_cleanup
      (fun _ => none) wParas "ignored" 9 "dp-700" "instructional" "/tmp/z" []
      ("/tmp/z" ++ "/" ++ audioFilename "dp-700" "instructional" 9) rfl).2
      segs (by decide) hsegs ⟨s0, hs0, rfl⟩
    exact ⟨segs, fs', hsegs, h1, h2 (fun _ => rfl),
      h3 (by rw [hlen3]; decide)⟩

end CertAudio
